import Mathlib

/-! # The in-browser JSX transformer (`vendor/browser-transforms.js`)

A shallow embedding of the ordered script loader (`loadScripts` and its
inner `check`) and of the diagnostic formatter
(`createSourceCodeErrorMessage`), followed by the properties proved of them.

Conventions of the embedding:

* a JavaScript string is the list of its UTF-16 code units (`JSString`);
* the array `result` of `loadScripts` is a list whose entries are `none`
  (the JavaScript value `false`) or `some` record `{executed, content, url}`;
* `run` is a parameter: it takes the state of the outside world (document,
  inline script counter, ...) and returns the new world together with the
  error it raised, if any;
* the field `log` is ghost state: it records, in order, every position whose
  record was passed to `run` and whether that call returned normally;
* `transformCode` is embedded with its collaborators from other modules (the
  docblock reader, `transformReact`, `location.href`, `JSON.stringify` and the
  base64 rendering of `buffer`) gathered in a `Host`; its state carries
  `inlineScriptCount` and, as ghost state, the calls of the transform and the
  labels given to source maps;
* the handler that `load` installs is `onreadystatechange`, with a ghost list
  of the invocations of the callback;
* `specDrainLoop`, `specNotifyLoaded` and `specTruncate` are written after the
  words of the specification, to be compared with the code.
-/

namespace BrowserTransforms

/-! ## JavaScript strings -/

/-- One UTF-16 code unit. -/
abbrev CodeUnit := Nat

/-- A JavaScript string: the sequence of its UTF-16 code units. -/
abbrev JSString := List CodeUnit

/-- UTF-16 code units of one Unicode scalar value. -/
def utf16Char (c : Char) : List CodeUnit :=
  if c.toNat < 0x10000 then [c.toNat]
  else [0xD800 + (c.toNat - 0x10000) / 0x400, 0xDC00 + (c.toNat - 0x10000) % 0x400]

/-- The JavaScript string denoted by a literal. -/
def utf16 (s : String) : JSString :=
  s.toList.flatMap utf16Char

/-! ## The ordered loader: `loadScripts` -/

/-- A record `{ executed: ..., content: ..., url: ... }` stored in `result`;
`url` is `none` for the JavaScript `null` of an inline script. -/
structure Script where
  executed : Bool
  content : JSString
  url : Option JSString
deriving DecidableEq, Repr

/-- The variables captured by the closures of `loadScripts`, the outside
world that `run` acts on, and the ghost log of the calls of `run`. -/
structure Env (W : Type) where
  result : List (Option Script)
  world : W
  log : List (Nat × Bool)

/-- The expression `result[i]`: an index outside the array reads `undefined`,
which is falsy like the initial `false`. -/
def slot (result : List (Option Script)) (i : Nat) : Option Script :=
  result.getD i none

/-- The record with its `executed` flag set, as `script.executed = true` leaves it. -/
def markExecuted (script : Script) : Script :=
  { script with executed := true }

/-- The body of `for (i = 0; i < count; i++)` in `check`, for the remaining
`k` iterations starting at index `i`. `run` raising ends the loop with the
error, before `script.executed = true`; a falsy entry ends it with `break`. -/
def checkLoop {W E : Type} (run : W → JSString → Option JSString → W × Option E) :
    Nat → Nat → Env W → Env W × Option E
  | 0, _, env => (env, none)
  | k + 1, i, env =>
    match slot env.result i with
    | some script =>
      if !script.executed then
        match run env.world script.content script.url with
        | (w, some err) =>
          ({ env with world := w, log := env.log ++ [(i, false)] }, some err)
        | (w, none) =>
          checkLoop run k (i + 1)
            { result := env.result.set i (some (markExecuted script)),
              world := w,
              log := env.log ++ [(i, true)] }
      else checkLoop run k (i + 1) env
    | none => (env, none)

/-- The function `check` of `loadScripts`; `count` is `result.length`, fixed
when `loadScripts` starts. -/
def check {W E : Type} (run : W → JSString → Option JSString → W × Option E)
    (count : Nat) (env : Env W) : Env W × Option E :=
  checkLoop run count 0 env

/-- The callback of `loadScripts` for the script at index `i` (both branches of
the `forEach` body do the same): `result[i] = { executed: false, content, url };
check();`. The index is always below `count`. -/
def loadCallback {W E : Type} (run : W → JSString → Option JSString → W × Option E)
    (count : Nat) (i : Nat) (content : JSString) (url : Option JSString)
    (env : Env W) : Env W × Option E :=
  check run count
    { env with result := env.result.set i (some { executed := false, content := content, url := url }) }

/-- The state in which `loadScripts` leaves `result` before any content has
arrived: `scripts.map(function() { return false; })`. -/
def initEnv {W : Type} (count : Nat) (w : W) : Env W :=
  { result := List.replicate count none, world := w, log := [] }

/-- What can happen during a run of `loadScripts`: the content of the script at
index `i` arrives (its callback fires), or `check` is invoked once more. -/
inductive Event where
  | load (i : Nat) (content : JSString) (url : Option JSString)
  | drain
deriving DecidableEq, Repr

/-- One event; the error, if any, is the one the callback raises to the host. -/
def step {W E : Type} (run : W → JSString → Option JSString → W × Option E)
    (count : Nat) (env : Env W) : Event → Env W × Option E
  | Event.load i content url => loadCallback run count i content url env
  | Event.drain => check run count env

/-- A sequence of events. An error raised by one callback goes to the host and
does not stop later callbacks from firing. -/
def runEvents {W E : Type} (run : W → JSString → Option JSString → W × Option E)
    (count : Nat) : Env W → List Event → Env W
  | env, [] => env
  | env, ev :: evs => runEvents run count (step run count env ev).1 evs

/-- The positions whose content arrives in a sequence of events, in order. -/
def loadPositions : List Event → List Nat
  | [] => []
  | Event.load i _ _ :: evs => i :: loadPositions evs
  | Event.drain :: evs => loadPositions evs

/-- A script element as `loadScripts` reads it: `src` is the empty string, which
is falsy, when the element has no `src`. -/
structure ScriptElement where
  src : JSString
  innerHTML : JSString
deriving DecidableEq, Repr

/-- The call `scripts.forEach(function(script, i) { ... })` of `loadScripts`, from
index `i` on. For an element with a `src`, `load` issues a request whose
callback fires later: the request is recorded in `issued` as the index and the
url. For an inline element the callback body runs at once, and an error it
raises ends the `forEach` and leaves `loadScripts`. -/
def forEachScript {W E : Type} (run : W → JSString → Option JSString → W × Option E)
    (count : Nat) : List ScriptElement → Nat → Env W → List (Nat × JSString) →
    (Env W × List (Nat × JSString)) × Option E
  | [], _, env, issued => ((env, issued), none)
  | script :: rest, i, env, issued =>
    if script.src ≠ [] then
      forEachScript run count rest (i + 1) env (issued ++ [(i, script.src)])
    else
      match loadCallback run count i script.innerHTML none env with
      | (env1, some err) => ((env1, issued), some err)
      | (env1, none) => forEachScript run count rest (i + 1) env1 issued

/-- The function `loadScripts(scripts)` up to its return: the state it leaves,
the requests it issued, and the error it raised, if any. -/
def loadScripts {W E : Type} (run : W → JSString → Option JSString → W × Option E)
    (scripts : List ScriptElement) (w : W) : (Env W × List (Nat × JSString)) × Option E :=
  forEachScript run scripts.length scripts 0 (initEnv scripts.length w) []

/-- The load events of the inline elements of a list whose first element has
index `i`. -/
def inlineEvents : List ScriptElement → Nat → List Event
  | [], _ => []
  | script :: rest, i =>
    if script.src ≠ [] then inlineEvents rest (i + 1)
    else Event.load i script.innerHTML none :: inlineEvents rest (i + 1)

/-- Whether the slot at position `i` is marked executed. -/
def executedAt (result : List (Option Script)) (i : Nat) : Bool :=
  match slot result i with
  | some script => script.executed
  | none => false

/-- Whether the content of the slot at position `i` has arrived. -/
def loadedAt (result : List (Option Script)) (i : Nat) : Bool :=
  (slot result i).isSome

/-- The positions passed to `run`, in order. -/
def positionsRun {W : Type} (env : Env W) : List Nat :=
  env.log.map Prod.fst

/-- A `run` that raises exactly on the content `bad`. -/
def runUnless (bad : JSString) (w : Nat) (content : JSString) (_url : Option JSString) :
    Nat × Option JSString :=
  if content = bad then (w, some (utf16 "SyntaxError")) else (w + 1, none)


/-- What one run of the loop of `check` does, in terms of the index `stop` at
which it ends: the slots from `i` up to `stop` were all loaded and are now
executed, those among them not yet executed were passed to `run` in ascending
order, and the loop ended at `stop` by exhaustion, by `break`, or by `run`
raising for the slot at `stop`. -/
structure CheckSpec {W E : Type} (run : W → JSString → Option JSString → W × Option E)
    (k i : Nat) (env : Env W) (out : Env W × Option E) (stop : Nat) : Prop where
  le_stop : i ≤ stop
  stop_le : stop ≤ i + k
  length_eq : out.1.result.length = env.result.length
  slot_eq : ∀ j, slot out.1.result j =
    if i ≤ j ∧ j < stop then (slot env.result j).map markExecuted else slot env.result j
  loaded : ∀ j, i ≤ j → j < stop → loadedAt env.result j = true
  log_eq : out.1.log = env.log ++
    ((List.range' i (stop - i)).filter (fun j => !executedAt env.result j)).map (fun j => (j, true))
      ++ (if out.2.isSome then [(stop, false)] else [])
  ended : out.2 = none → stop = i + k ∨ slot env.result stop = none
  raised : ∀ err, out.2 = some err → stop < i + k ∧ ∃ sc w, slot env.result stop = some sc ∧
    sc.executed = false ∧ run w sc.content sc.url = (out.1.world, some err)
  returned : ∀ j sc, i ≤ j → j < stop → slot env.result j = some sc → sc.executed = false →
    ∃ w, (run w sc.content sc.url).2 = none

/-- What holds of every state that `loadScripts` reaches when the content of
each position arrives at most once (`ps` lists the positions whose content has
arrived): the executed slots are closed downwards, only arrived positions are
loaded, a position was passed to `run` only with every lower slot executed,
a call of `run` that returned left its slot executed, and no position was
passed to `run` again after a call for it returned. -/
structure TraceInv {W : Type} (count : Nat) (env : Env W) (ps : List Nat) : Prop where
  length_eq : env.result.length = count
  closed : ∀ i j, i < j → executedAt env.result j = true → executedAt env.result i = true
  loaded_mem : ∀ i, loadedAt env.result i = true → i ∈ ps
  logged : ∀ x ∈ env.log, loadedAt env.result x.1 = true ∧
    ∀ j, j < x.1 → executedAt env.result j = true
  log_ok : ∀ x ∈ env.log, x.2 = true → executedAt env.result x.1 = true
  once : env.log.Pairwise (fun a b => a.2 = true → a.1 ≠ b.1)

/-- What holds of every state that `loadScripts` reaches when no call of `run`
raises and each position is notified at most once: exactly the slots below `k`
are executed, they were passed to `run` in the order `0, ..., k - 1`, the slot
at `k` is still pending, and the loaded slots are the notified ones. -/
structure OrderInv {W : Type} (count : Nat) (env : Env W) (ps : List Nat) (k : Nat) : Prop where
  length_eq : env.result.length = count
  executed_iff : ∀ j, executedAt env.result j = true ↔ j < k
  log_eq : env.log = (List.range k).map (fun j => (j, true))
  next_pending : k < count → slot env.result k = none
  loaded_iff : ∀ j, loadedAt env.result j = true ↔ (j ∈ ps ∧ j < count)

/-- A `run` that never raises. -/
def runOk (w : Nat) (_content : JSString) (_url : Option JSString) : Nat × Option JSString :=
  (w + 1, none)

/-- A state of three loaded slots in which slot 0 is executed and the content of
slot 1 is one that `runUnless` raises for. -/
def stuckEnv : Env Nat :=
  { result := [some { executed := true, content := utf16 "a", url := none },
               some { executed := false, content := utf16 "bad", url := none },
               some { executed := false, content := utf16 "c", url := none }],
    world := 1,
    log := [(0, true)] }

/-- What holds of every state of a run in which the slot at `p` can never be
executed, because its content never arrives or because `run` raises for its
content whatever the world: slot `p` is pending or loaded with such content
and not executed, no slot above `p` is executed, and no position above `p` was
passed to `run`. -/
structure BlockedInv {W E : Type} (run : W → JSString → Option JSString → W × Option E)
    (p : Nat) (env : Env W) : Prop where
  stuck : slot env.result p = none ∨ ∃ sc, slot env.result p = some sc ∧
    sc.executed = false ∧ ∀ w, (run w sc.content sc.url).2 ≠ none
  above : ∀ j, p < j → executedAt env.result j = false
  log_le : ∀ x ∈ env.log, x.1 ≤ p

/-! ## The diagnostic formatter: `createSourceCodeErrorMessage` -/

/-- The exceptions that the formatter itself can raise. -/
inductive JSException where
  | typeError
  | rangeError
deriving DecidableEq, Repr

/-- The error object `e` caught by `transformCode`: the properties that the
code reads or writes. `fileName` is `none` when the object has no such
property. -/
structure TransformError where
  message : JSString
  lineNumber : Int
  column : Int
  fileName : Option JSString
deriving DecidableEq, Repr

/-- The code units matched by `\s` in a regular expression: white space and
line terminators of ECMAScript. -/
def isWhiteSpace (c : CodeUnit) : Bool :=
  c = 0x09 || c = 0x0A || c = 0x0B || c = 0x0C || c = 0x0D || c = 0x20 || c = 0xA0 ||
  c = 0x1680 || (0x2000 ≤ c && c ≤ 0x200A) || c = 0x2028 || c = 0x2029 || c = 0x202F ||
  c = 0x205F || c = 0x3000 || c = 0xFEFF

/-- The method `split` with a separator of one code unit: `code.split(sep)`. -/
def jsSplit (sep : CodeUnit) : JSString → List JSString
  | [] => [[]]
  | c :: cs =>
    if c = sep then [] :: jsSplit sep cs
    else
      match jsSplit sep cs with
      | [] => [[c]]
      | l :: ls => (c :: l) :: ls

/-- Indexing `xs[k]` with a number: `none` stands for `undefined`. -/
def jsIndex {α : Type} (xs : List α) (k : Int) : Option α :=
  if k < 0 then none else xs[k.toNat]?

/-- How `slice` reads one of its arguments for a string of length `len`: a
negative argument counts from the end, and the result is kept within
`0 .. len`. -/
def sliceBound (len : Nat) (k : Int) : Nat :=
  if k < 0 then ((len : Int) + k).toNat else min k.toNat len

/-- The method `slice`: `s.slice(start, stop)`. -/
def jsSlice (s : JSString) (start stop : Int) : JSString :=
  (s.drop (sliceBound s.length start)).take
    (sliceBound s.length stop - sliceBound s.length start)

/-- The method `slice` with its second argument left out: `s.slice(start)`. -/
def jsSliceFrom (s : JSString) (start : Int) : JSString :=
  jsSlice s start s.length

/-- The expression `new Array(n).join(sep)`: a length that is negative or above
`2^32 - 1` raises a `RangeError`; otherwise the `n` empty elements are joined
by `n - 1` separators. -/
def newArrayJoin (n : Int) (sep : JSString) : Except JSException JSString :=
  if n < 0 ∨ 4294967295 < n then Except.error JSException.rangeError
  else Except.ok (List.replicate (n.toNat - 1) sep).flatten

/-- The constant `LIMIT` of `createSourceCodeErrorMessage`. -/
def LIMIT : Int := 30

/-- The function `createSourceCodeErrorMessage(code, e)`. Reading a property of
`undefined`, when `e.lineNumber - 1` is no index of `sourceLines`, raises a
`TypeError`. -/
def createSourceCodeErrorMessage (code : JSString) (e : TransformError) :
    Except JSException JSString :=
  let sourceLines := jsSplit 0x0A code
  match jsIndex sourceLines (e.lineNumber - 1) with
  | none => Except.error JSException.typeError
  | some line =>
    let indentation : Int := (line.takeWhile isWhiteSpace).length
    let erroneousLine := line.dropWhile isWhiteSpace
    let errorColumn := e.column - indentation
    let truncated : JSString × Int :=
      if errorColumn > LIMIT then
        (utf16 "... " ++ jsSliceFrom erroneousLine (errorColumn - LIMIT), 4 + LIMIT)
      else (erroneousLine, errorColumn)
    let erroneousLine := truncated.1
    let errorColumn := truncated.2
    let erroneousLine :=
      if (erroneousLine.length : Int) - errorColumn > LIMIT then
        jsSlice erroneousLine 0 (errorColumn + LIMIT) ++ utf16 " ..."
      else erroneousLine
    let message := utf16 "\n\n" ++ erroneousLine ++ utf16 "\n"
    match newArrayJoin (errorColumn - 1) (utf16 " ") with
    | Except.error ex => Except.error ex
    | Except.ok pad => Except.ok (message ++ pad ++ utf16 "^")

/-- An error object with the given position. -/
def errorAt (line column : Int) : TransformError :=
  { message := utf16 "Parse Error", lineNumber := line, column := column, fileName := none }

/-- The last line of a text. -/
def lastLine (text : JSString) : JSString :=
  (jsSplit 0x0A text).getLastD []

/-- The truncation policy as the specification words it (section 4.4, step 4,
with `LIMIT = 30`), for the stripped line `s` and the effective column `col`:
if `col > 30`, keep the suffix of `s` starting `col - 30` characters in,
put `"... "` before it and reset `col` to 34; then, if the length of the line
minus `col` exceeds 30, cut the line after `col + 30` characters and append
`" ..."`. The result is the displayed line and the column of the caret. -/
def specTruncate (s : JSString) (col : Int) : JSString × Int :=
  let first : JSString × Int :=
    if col > 30 then (utf16 "... " ++ s.drop (col - 30).toNat, 34) else (s, col)
  let shown : JSString :=
    if (first.1.length : Int) - first.2 > 30 then
      first.1.take (first.2 + 30).toNat ++ utf16 " ..."
    else first.1
  (shown, first.2)

/-- The line of the truncation example of the specification. -/
def exampleLine : JSString :=
  utf16 "var x = \x7bcolor: 'red', display:'block', overflow:'scroll'\x7d\x7d;"

/-- A line of one hundred characters. -/
def longLine : JSString :=
  utf16 ("0123456789012345678901234567890123456789012345678901234567890123456789" ++
    "012345678901234567890123456789")


/-! ## The fetcher: `load` -/

/-- The request object `xhr` as the handler `onreadystatechange` reads it. -/
structure XHR where
  readyState : Int
  status : Int
  responseText : JSString
deriving DecidableEq, Repr

/-- What the handler of `load` can raise: the error it makes itself,
`new Error("Could not load " + url)`, or whatever the callback raises. -/
inductive LoadFailure (E : Type) where
  | error (message : JSString)
  | fromCallback (err : E)
deriving DecidableEq, Repr

/-- The state around a call of the handler: the state that the callback acts on
and, as ghost state, the arguments of every invocation of the callback. -/
structure Fetch (S : Type) where
  state : S
  calls : List (JSString × JSString)

/-- The handler `xhr.onreadystatechange` that `load(url, callback)` installs. -/
def onreadystatechange {S E : Type} (callback : JSString → JSString → S → S × Option E)
    (url : JSString) (xhr : XHR) (f : Fetch S) : Fetch S × Option (LoadFailure E) :=
  if xhr.readyState = 4 then
    if xhr.status = 0 ∨ xhr.status = 200 then
      match callback xhr.responseText url f.state with
      | (s, none) => ({ state := s, calls := f.calls ++ [(xhr.responseText, url)] }, none)
      | (s, some err) =>
        ({ state := s, calls := f.calls ++ [(xhr.responseText, url)] },
          some (LoadFailure.fromCallback err))
    else (f, some (LoadFailure.error (utf16 "Could not load " ++ url)))
  else (f, none)

/-- A callback that stores the text it receives and never raises. -/
def storeText (text : JSString) (_url : JSString) (_s : JSString) : JSString × Option Unit :=
  (text, none)

/-- What holds after every load callback and every drain: a loaded slot whose
lower slots are all executed is executed itself, unless `run` raised for it. -/
structure CompleteInv {W : Type} (count : Nat) (env : Env W) : Prop where
  length_eq : env.result.length = count
  complete : ∀ k, (∀ j, j < k → executedAt env.result j = true) →
    loadedAt env.result k = true →
    executedAt env.result k = true ∨ (k, false) ∈ env.log


/-! ## The sequencer as the specification describes it -/

/-- The state of a slot in the data model of the specification:
`Pending`, `Loaded`, `Executed`. -/
inductive SlotState where
  | pending
  | loaded (content : JSString) (url : Option JSString)
  | executed (content : JSString) (url : Option JSString)
deriving DecidableEq, Repr

/-- The orchestrator state of the specification: the slots, the `cursor`, and
the same outside world and ghost log as in `Env`. -/
structure Sequencer (W : Type) where
  slots : List SlotState
  cursor : Nat
  world : W
  log : List (Nat × Bool)

/-- The drain algorithm in the words of the specification (section 4.1), for the
`k` slots from the scan position `i` on: a `Loaded` slot is transformed and
executed, set to `Executed`, and the cursor advances; a `Pending` slot stops
the scan; a failure ends the drain at once without advancing. The
specification is silent on an `Executed` slot met by the scan, which the scan
then passes over. -/
def specDrainLoop {W E : Type} (run : W → JSString → Option JSString → W × Option E) :
    Nat → Nat → Sequencer W → Sequencer W × Option E
  | 0, _, st => (st, none)
  | k + 1, i, st =>
    match st.slots.getD i SlotState.pending with
    | SlotState.loaded content url =>
      match run st.world content url with
      | (w, some err) => ({ st with world := w, log := st.log ++ [(i, false)] }, some err)
      | (w, none) =>
        specDrainLoop run k (i + 1)
          { slots := st.slots.set i (SlotState.executed content url),
            cursor := st.cursor + 1,
            world := w,
            log := st.log ++ [(i, true)] }
    | SlotState.pending => (st, none)
    | SlotState.executed _ _ => specDrainLoop run k (i + 1) st

/-- The drain of the specification: the scan starts at `cursor`. -/
def specDrain {W E : Type} (run : W → JSString → Option JSString → W × Option E)
    (st : Sequencer W) : Sequencer W × Option E :=
  specDrainLoop run (st.slots.length - st.cursor) st.cursor st

/-- The operation `notifyLoaded(position, content)` of the specification: the
slot becomes `Loaded`, then the drain is attempted. -/
def specNotifyLoaded {W E : Type} (run : W → JSString → Option JSString → W × Option E)
    (position : Nat) (content : JSString) (url : Option JSString) (st : Sequencer W) :
    Sequencer W × Option E :=
  specDrain run { st with slots := st.slots.set position (SlotState.loaded content url) }

/-- The initial state of the specification: every slot `Pending`, cursor 0. -/
def specInit {W : Type} (count : Nat) (w : W) : Sequencer W :=
  { slots := List.replicate count SlotState.pending, cursor := 0, world := w, log := [] }

/-- One event on the sequencer of the specification. -/
def specStep {W E : Type} (run : W → JSString → Option JSString → W × Option E)
    (st : Sequencer W) : Event → Sequencer W × Option E
  | Event.load i content url => specNotifyLoaded run i content url st
  | Event.drain => specDrain run st

/-- A sequence of events on the sequencer of the specification. -/
def specRunEvents {W E : Type} (run : W → JSString → Option JSString → W × Option E) :
    Sequencer W → List Event → Sequencer W
  | st, [] => st
  | st, ev :: evs => specRunEvents run (specStep run st ev).1 evs

/-- The slot state that an entry of `result` stands for. -/
def slotStateOf : Option Script → SlotState
  | none => SlotState.pending
  | some script =>
    if script.executed then SlotState.executed script.content script.url
    else SlotState.loaded script.content script.url

/-- The number of executed slots. -/
def executedCount (result : List (Option Script)) : Nat :=
  result.countP (fun entry => match entry with
    | some script => script.executed
    | none => false)

/-- The state of the code seen as a state of the specification, with a given
cursor. -/
def sequencerAt {W : Type} (env : Env W) (cursor : Nat) : Sequencer W :=
  { slots := env.result.map slotStateOf, cursor := cursor, world := env.world, log := env.log }

/-- The state of the code seen as a state of the specification: the cursor is
the number of executed slots. -/
def sequencerOf {W : Type} (env : Env W) : Sequencer W :=
  sequencerAt env (executedCount env.result)


/-- The message that `createSourceCodeErrorMessage` builds when its two
truncation steps (the two `if` statements on `LIMIT`) are left out: the
formatting "with no truncation applied" that the truncated message is compared
with. -/
def messageWithoutTruncation (code : JSString) (e : TransformError) :
    Except JSException JSString :=
  let sourceLines := jsSplit 0x0A code
  match jsIndex sourceLines (e.lineNumber - 1) with
  | none => Except.error JSException.typeError
  | some line =>
    let indentation : Int := (line.takeWhile isWhiteSpace).length
    let erroneousLine := line.dropWhile isWhiteSpace
    let errorColumn := e.column - indentation
    let message := utf16 "\n\n" ++ erroneousLine ++ utf16 "\n"
    match newArrayJoin (errorColumn - 1) (utf16 " ") with
    | Except.error ex => Except.error ex
    | Except.ok pad => Except.ok (message ++ pad ++ utf16 "^")

/-- The character of the source-line part of a message that stands directly
above the caret: the message has four lines, two empty ones, the source line
and the caret line, and the caret is the last character of the caret line. -/
def charAboveCaret (msg : JSString) : Option CodeUnit :=
  match jsSplit 0x0A msg with
  | [_, _, snippet, caretLine] => snippet[caretLine.length - 1]?
  | _ => none


/-! ## The transformer adapter: `transformCode` -/

/-- A JSON value, as `JSON.stringify` takes it. -/
inductive JSON where
  | null
  | bool (b : Bool)
  | number (n : Int)
  | string (s : JSString)
  | array (items : List JSON)
  | object (fields : List (JSString × JSON))

/-- The assignment `map.key = value` on the properties of a plain object: an
existing property keeps its place and takes the new value, a new property is
added at the end. -/
def setProperty (fields : List (JSString × JSON)) (key : JSString) (value : JSON) :
    List (JSString × JSON) :=
  match fields with
  | [] => [(key, value)]
  | (k, v) :: rest =>
    if k = key then (key, value) :: rest else (k, v) :: setProperty rest key value

/-- Reading the property `map.key`; `none` stands for `undefined`. -/
def getProperty (fields : List (JSString × JSON)) (key : JSString) : Option JSON :=
  match fields with
  | [] => none
  | (k, v) :: rest => if k = key then some v else getProperty rest key

/-- The value `transformed` that `transformReact` returns: `sourceMap` is `none`
when the transform built no source map, and otherwise holds the object that
`transformed.sourceMap.toJSON()` returns. -/
structure Transformed where
  code : JSString
  sourceMap : Option (List (JSString × JSON))

/-- The collaborators of `transformCode` that lie outside the file: whether the
docblock of the code has a truthy `jsx` entry, the function `transformReact`
applied to the code alone, `location.href`, `JSON.stringify`, and the base64
rendering `buffer.Buffer(text).toString('base64')`. -/
structure Host where
  jsx : JSString → Bool
  transformReact : JSString → Except TransformError Transformed
  href : JSString
  stringify : JSON → JSString
  base64 : JSString → JSString

/-- The module variable `inlineScriptCount` and, as ghost state, the codes
passed to `transformReact` by `transformCode` and the labels assigned to
`map.sources`, both in order. -/
structure TransformState where
  inlineScriptCount : Nat
  transformCalls : List JSString
  labels : List JSString
deriving DecidableEq, Repr

/-- What `transformCode` throws: the error `e` of the transform, changed, or an
exception raised by `createSourceCodeErrorMessage`. -/
inductive Thrown where
  | transformError (e : TransformError)
  | exception (ex : JSException)
deriving DecidableEq, Repr

/-- The string that `+` makes of an integer number. -/
def numberToString (n : Int) : JSString :=
  utf16 (toString n)

/-- The condition `if (source)`: neither `null` nor the empty string. -/
def truthy (source : Option JSString) : Bool :=
  match source with
  | none => false
  | some s => !s.isEmpty

/-- The statements of `transformCode` that choose the label of the source map
and count the inline scripts: `if (source == null) { source = "Inline JSX
script"; inlineScriptCount++; if (inlineScriptCount > 1) { source += ' (' +
inlineScriptCount + ')'; } }`. The result is the label and the new count. -/
def sourceLabel (source : Option JSString) (inlineScriptCount : Nat) : JSString × Nat :=
  match source with
  | some s => (s, inlineScriptCount)
  | none =>
    let count := inlineScriptCount + 1
    if count > 1 then
      (utf16 "Inline JSX script" ++ (utf16 " (" ++ numberToString count ++ utf16 ")"), count)
    else (utf16 "Inline JSX script", count)

/-- The statements `map.sources = [source]; map.sourcesContent = [code];`. -/
def sourceMapFor (map : List (JSString × JSON)) (label code : JSString) :
    List (JSString × JSON) :=
  setProperty (setProperty map (utf16 "sources") (JSON.array [JSON.string label]))
    (utf16 "sourcesContent") (JSON.array [JSON.string code])

/-- The literal `'//# sourceMappingURL=data:application/json;base64,'`. -/
def sourceMappingPrefix : JSString :=
  utf16 "//# sourceMappingURL=data:application/json;base64,"

/-- The `catch` branch of `transformCode` up to the call of the formatter: the
error with the location appended to its message and, when a source is given
and the error has the property, `fileName` set to the source. -/
def locateError (host : Host) (e : TransformError) (source : Option JSString) :
    TransformError :=
  let e1 := { e with message := e.message ++ utf16 "\n    at " }
  match source with
  | some s =>
    if truthy (some s) then
      let e2 := if e1.fileName.isSome then { e1 with fileName := some s } else e1
      { e2 with message := e2.message ++
          (s ++ utf16 ":" ++ numberToString e2.lineNumber ++ utf16 ":"
            ++ numberToString e2.column) }
    else { e1 with message := e1.message ++ host.href }
  | none => { e1 with message := e1.message ++ host.href }

/-- The function `transformCode(code, source)`; `source` is `none` for `null`
and for a missing argument. -/
def transformCode (host : Host) (code : JSString) (source : Option JSString)
    (st : TransformState) : Except Thrown JSString × TransformState :=
  if host.jsx code then
    let st1 := { st with transformCalls := st.transformCalls ++ [code] }
    match host.transformReact code with
    | Except.error e =>
      let e1 := locateError host e source
      match createSourceCodeErrorMessage code e1 with
      | Except.error ex => (Except.error (Thrown.exception ex), st1)
      | Except.ok text =>
        (Except.error (Thrown.transformError { e1 with message := e1.message ++ text }), st1)
    | Except.ok transformed =>
      match transformed.sourceMap with
      | none => (Except.ok transformed.code, st1)
      | some map =>
        let labelled := sourceLabel source st1.inlineScriptCount
        (Except.ok (transformed.code ++ sourceMappingPrefix
            ++ host.base64 (host.stringify (JSON.object (sourceMapFor map labelled.1 code)))),
          { st1 with inlineScriptCount := labelled.2, labels := st1.labels ++ [labelled.1] })
  else (Except.ok code, st)

/-- The initial state of the module: `var inlineScriptCount = 0;`. -/
def initTransformState : TransformState :=
  { inlineScriptCount := 0, transformCalls := [], labels := [] }


/-! ## A concrete host, for the examples -/

/-- A string between double quotes, with `"`, `\` and the newline escaped, as
`JSON.stringify` writes it. -/
def quoteString (s : JSString) : JSString :=
  [0x22] ++ s.flatMap (fun c =>
    if c = 0x22 then [0x5C, 0x22] else if c = 0x5C then [0x5C, 0x5C]
    else if c = 0x0A then [0x5C, 0x6E] else [c]) ++ [0x22]

mutual
/-- The text that `JSON.stringify` writes for a value whose strings need no
other escapes. -/
def renderJSON : JSON → JSString
  | JSON.null => utf16 "null"
  | JSON.bool b => if b then utf16 "true" else utf16 "false"
  | JSON.number n => numberToString n
  | JSON.string s => quoteString s
  | JSON.array items => [0x5B] ++ renderItems items ++ [0x5D]
  | JSON.object fields => [0x7B] ++ renderFields fields ++ [0x7D]
/-- The items of an array, separated by commas. -/
def renderItems : List JSON → JSString
  | [] => []
  | [x] => renderJSON x
  | x :: y :: rest => renderJSON x ++ [0x2C] ++ renderItems (y :: rest)
/-- The properties of an object, separated by commas. -/
def renderFields : List (JSString × JSON) → JSString
  | [] => []
  | [(k, v)] => quoteString k ++ [0x3A] ++ renderJSON v
  | (k, v) :: f :: rest =>
    quoteString k ++ [0x3A] ++ renderJSON v ++ [0x2C] ++ renderFields (f :: rest)
end

/-- The character of the base64 alphabet for a value below 64. -/
def base64Digit (n : Nat) : CodeUnit :=
  if n < 26 then 0x41 + n
  else if n < 52 then 0x61 + (n - 26)
  else if n < 62 then 0x30 + (n - 52)
  else if n = 62 then 0x2B else 0x2F

/-- Base64 of a sequence of bytes, with padding. -/
def base64Encode : List Nat → JSString
  | [] => []
  | [a] => [base64Digit (a / 4), base64Digit (a % 4 * 16), 0x3D, 0x3D]
  | [a, b] => [base64Digit (a / 4), base64Digit (a % 4 * 16 + b / 16),
      base64Digit (b % 16 * 4), 0x3D]
  | a :: b :: c :: rest =>
    [base64Digit (a / 4), base64Digit (a % 4 * 16 + b / 16),
      base64Digit (b % 16 * 4 + c / 64), base64Digit (c % 64)] ++ base64Encode rest

/-- The value of a character of the base64 alphabet. -/
def base64Value (c : CodeUnit) : Option Nat :=
  if 0x41 ≤ c ∧ c ≤ 0x5A then some (c - 0x41)
  else if 0x61 ≤ c ∧ c ≤ 0x7A then some (c - 0x61 + 26)
  else if 0x30 ≤ c ∧ c ≤ 0x39 then some (c - 0x30 + 52)
  else if c = 0x2B then some 62
  else if c = 0x2F then some 63
  else none

/-- The bytes that a base64 text with padding stands for. -/
def base64Decode : JSString → Option (List Nat)
  | [] => some []
  | a :: b :: c :: d :: rest =>
    match base64Value a, base64Value b with
    | some x, some y =>
      if c = 0x3D ∧ d = 0x3D then
        if rest = [] then some [x * 4 + y / 16] else none
      else
        match base64Value c with
        | some z =>
          if d = 0x3D then
            if rest = [] then some [x * 4 + y / 16, y % 16 * 16 + z / 4] else none
          else
            match base64Value d, base64Decode rest with
            | some t, some more =>
              some ((x * 4 + y / 16) :: (y % 16 * 16 + z / 4) :: (z % 4 * 64 + t) :: more)
            | _, _ => none
        | none => none
    | _, _ => none
  | _ => none

/-- A host whose transform gives a fixed result: the `jsx` entry is read off a
docblock that starts the code, texts are rendered by `renderJSON` and, for
texts of code units below 128, by the base64 of their bytes. -/
def hostWith (result : Except TransformError Transformed) : Host :=
  { jsx := fun code => code.take 8 = utf16 "/** @jsx",
    transformReact := fun _ => result,
    href := utf16 "http://localhost/index.html",
    stringify := renderJSON,
    base64 := base64Encode }

/-- A script with the `jsx` pragma and a syntax error at line 2, column 9. -/
def brokenScript : JSString :=
  utf16 "/** @jsx React.DOM */\nvar x = ;"

/-- The error of a parser for `brokenScript`. -/
def brokenError : TransformError :=
  { message := utf16 "Parse Error: Line 2: Unexpected token ;",
    lineNumber := 2, column := 9, fileName := none }

/-- A script with the `jsx` pragma. -/
def jsxScript : JSString :=
  utf16 "/** @jsx React.DOM */\nvar a = <b/>;"

/-- A result of the transform for `jsxScript`, with a source map. -/
def jsxTransformed : Transformed :=
  { code := utf16 "/** @jsx React.DOM */\nvar a = b(null);",
    sourceMap := some [(utf16 "version", JSON.number 3), (utf16 "sources", JSON.array []),
      (utf16 "mappings", JSON.string (utf16 "AAAA"))] }

/-- Where the message says the error is: the source with line and column when a
source is given, the address of the page otherwise. -/
def locationText (host : Host) (e : TransformError) (source : Option JSString) : JSString :=
  match source with
  | some s =>
    if truthy (some s) then
      s ++ utf16 ":" ++ numberToString e.lineNumber ++ utf16 ":" ++ numberToString e.column
    else host.href
  | none => host.href


/-- The base64 text that `transformCode` appends for `jsxScript`, transformed to
`jsxTransformed`, with the source `a.js`. -/
def jsxPayload : JSString :=
  utf16 ("eyJ2ZXJzaW9uIjozLCJzb3VyY2VzIjpbImEuanMiXSwibWFwcGluZ3MiOiJBQUFBIiwic291cmNlc0Nv" ++
    "bnRlbnQiOlsiLyoqIEBqc3ggUmVhY3QuRE9NICovXG52YXIgYSA9IDxiLz47Il19")

/-- A reader of JSON texts that knows one text only, the rendering of
`expected`. -/
def parseOnly (expected : JSON) (text : JSString) : Option JSON :=
  if text = renderJSON expected then some expected else none


/-- A run of `transformCode` over the fragments of a page, in order: each is the
code and the source given for it. An error thrown for one fragment does not
keep the following ones from being transformed. -/
def runFragments (host : Host) : List (JSString × Option JSString) → TransformState →
    TransformState
  | [], st => st
  | (code, source) :: rest, st => runFragments host rest (transformCode host code source st).2

/-- Whether `transformCode` reaches the statements that label the source map:
the fragment has the pragma and its transform returns a source map. -/
def getsLabel (host : Host) (fragment : JSString × Option JSString) : Bool :=
  host.jsx fragment.1 &&
    (match host.transformReact fragment.1 with
      | Except.ok transformed => transformed.sourceMap.isSome
      | Except.error _ => false)

/-- The labels that `sourceLabel` gives one after the other to a list of
sources, starting with a given count. -/
def labelsFrom : List (Option JSString) → Nat → List JSString
  | [], _ => []
  | source :: rest, count =>
    (sourceLabel source count).1 :: labelsFrom rest (sourceLabel source count).2


/-- The label of a fragment in the words of the claim, with the text that the
code uses: the source when one is given, and for the `n`-th fragment without a
source `Inline JSX script` when `n = 1`, `Inline JSX script (n)` otherwise. -/
def expectedLabel (source : Option JSString) (n : Nat) : JSString :=
  match source with
  | some s => s
  | none =>
    if n = 1 then utf16 "Inline JSX script"
    else utf16 "Inline JSX script" ++ utf16 " (" ++ numberToString (n : Nat) ++ utf16 ")"


/-- A line whose formatting at column 69 is the example in the comment above
`createSourceCodeErrorMessage` in the source. -/
def commentExampleLine : JSString :=
  utf16 ("<div style=\x7b\x7bdisplay:'block', overflow-x', overflow:'scroll'\x7d\x7d " ++
    "id=\x7b\x7d onScroll=\x7bthis.scroll\x7d class=\"panel\">")

/-! ## Reading and writing `result` -/

theorem slot_eq_getElem? (r : List (Option Script)) (i : Nat) :
    slot r i = (r[i]?).getD none := by
  simp [slot, List.getD_eq_getElem?_getD]

theorem slot_lt_length {r : List (Option Script)} {i : Nat} {sc : Script}
    (h : slot r i = some sc) : i < r.length := by
  by_contra hlt
  rw [slot_eq_getElem?, List.getElem?_eq_none (by omega)] at h
  simp at h

theorem slot_set_self {r : List (Option Script)} {i : Nat} (v : Option Script)
    (h : i < r.length) : slot (r.set i v) i = v := by
  simp [slot_eq_getElem?, List.getElem?_set, h]

theorem slot_set_of_ne {r : List (Option Script)} {i j : Nat} (v : Option Script)
    (h : j ≠ i) : slot (r.set i v) j = slot r j := by
  simp [slot_eq_getElem?, List.getElem?_set, Ne.symm h]

theorem slot_replicate_none (n i : Nat) : slot (List.replicate n none) i = none := by
  simp only [slot_eq_getElem?, List.getElem?_replicate]
  split <;> rfl

theorem executedAt_eq_true {r : List (Option Script)} {i : Nat} :
    executedAt r i = true ↔ ∃ sc, slot r i = some sc ∧ sc.executed = true := by
  unfold executedAt
  cases slot r i <;> simp

theorem markExecuted_of_executed {sc : Script} (h : sc.executed = true) :
    markExecuted sc = sc := by
  cases sc
  simp_all [markExecuted]

/-- The loop that ends at once, by exhaustion or by `break`. -/
theorem checkSpec_here {W E : Type} (run : W → JSString → Option JSString → W × Option E)
    (k i : Nat) (env : Env W) (h : k = 0 ∨ slot env.result i = none) :
    CheckSpec run k i env (env, none) i where
  le_stop := le_refl _
  stop_le := by omega
  length_eq := rfl
  slot_eq := by
    intro j
    have : ¬ (i ≤ j ∧ j < i) := by omega
    rw [if_neg this]
  loaded := by intro j h1 h2; omega
  log_eq := by simp
  ended := by
    intro _
    rcases h with h | h
    · left; omega
    · right; exact h
  raised := by intro err herr; cases herr
  returned := by intro j sc h1 h2; omega

/-- The loop of `check`, described by the index at which it ends. -/
theorem checkLoop_spec {W E : Type} (run : W → JSString → Option JSString → W × Option E) :
    ∀ (k i : Nat) (env : Env W), ∃ stop, CheckSpec run k i env (checkLoop run k i env) stop := by
  intro k
  induction k with
  | zero =>
    intro i env
    exact ⟨i, checkSpec_here run 0 i env (Or.inl rfl)⟩
  | succ k ih =>
    intro i env
    cases hs : slot env.result i with
    | none =>
      have hout : checkLoop run (k + 1) i env = (env, none) := by
        simp [checkLoop, hs]
      rw [hout]
      exact ⟨i, checkSpec_here run (k + 1) i env (Or.inr hs)⟩
    | some sc =>
      cases hx : sc.executed with
      | true =>
        have hout : checkLoop run (k + 1) i env = checkLoop run k (i + 1) env := by
          simp [checkLoop, hs, hx]
        obtain ⟨stop, sp⟩ := ih (i + 1) env
        rw [hout]
        refine ⟨stop, ?_⟩
        have h1 := sp.le_stop
        have hrange : List.range' i (stop - i) = i :: List.range' (i + 1) (stop - (i + 1)) := by
          have : stop - i = (stop - (i + 1)) + 1 := by omega
          rw [this, List.range'_succ]
        have hexi : executedAt env.result i = true :=
          executedAt_eq_true.2 ⟨sc, hs, hx⟩
        constructor
        · omega
        · have := sp.stop_le; omega
        · exact sp.length_eq
        · intro j
          rw [sp.slot_eq j]
          by_cases hji : j = i
          · subst hji
            have : ¬ (j + 1 ≤ j ∧ j < stop) := by omega
            rw [if_neg this, if_pos ⟨le_refl _, by omega⟩, hs]
            simp [markExecuted_of_executed hx]
          · have : (i + 1 ≤ j ∧ j < stop) ↔ (i ≤ j ∧ j < stop) := by omega
            simp only [this]
        · intro j hj1 hj2
          by_cases hji : j = i
          · subst hji; simp [loadedAt, hs]
          · exact sp.loaded j (by omega) hj2
        · rw [sp.log_eq, hrange, List.filter_cons]
          simp [hexi]
        · intro hnone
          rcases sp.ended hnone with h | h
          · left; omega
          · right; exact h
        · intro err herr
          obtain ⟨h2, h3⟩ := sp.raised err herr
          exact ⟨by omega, h3⟩
        · intro j sc2 hj1 hj2 hsl hex
          by_cases hji : j = i
          · subst hji
            rw [hs] at hsl
            cases hsl
            rw [hx] at hex
            cases hex
          · exact sp.returned j sc2 (by omega) hj2 hsl hex
      | false =>
        have hlt : i < env.result.length := slot_lt_length hs
        have hexi : executedAt env.result i = false := by
          simp [executedAt, hs, hx]
        cases hr : run env.world sc.content sc.url with
        | mk w oerr =>
          cases oerr with
          | some err =>
            have hout : checkLoop run (k + 1) i env =
                ({ env with world := w, log := env.log ++ [(i, false)] }, some err) := by
              simp [checkLoop, hs, hx, hr]
            rw [hout]
            refine ⟨i, ?_⟩
            constructor
            · exact le_refl _
            · omega
            · rfl
            · intro j
              have : ¬ (i ≤ j ∧ j < i) := by omega
              rw [if_neg this]
            · intro j h1 h2; omega
            · simp
            · intro h; cases h
            · intro err2 herr
              cases herr
              exact ⟨by omega, sc, env.world, hs, hx, hr⟩
            · intro j sc2 h1 h2; omega
          | none =>
            have hout : checkLoop run (k + 1) i env = checkLoop run k (i + 1)
                { result := env.result.set i (some (markExecuted sc)),
                  world := w, log := env.log ++ [(i, true)] } := by
              simp [checkLoop, hs, hx, hr]
            obtain ⟨stop, sp⟩ := ih (i + 1)
              { result := env.result.set i (some (markExecuted sc)),
                world := w, log := env.log ++ [(i, true)] }
            rw [hout]
            refine ⟨stop, ?_⟩
            have h1 := sp.le_stop
            have hrange : List.range' i (stop - i) =
                i :: List.range' (i + 1) (stop - (i + 1)) := by
              have : stop - i = (stop - (i + 1)) + 1 := by omega
              rw [this, List.range'_succ]
            have hslot : ∀ j, j ≠ i →
                slot (env.result.set i (some (markExecuted sc))) j = slot env.result j :=
              fun j hj => slot_set_of_ne _ hj
            have hexec : ∀ j, j ≠ i →
                executedAt (env.result.set i (some (markExecuted sc))) j
                  = executedAt env.result j := by
              intro j hj
              simp [executedAt, hslot j hj]
            constructor
            · omega
            · have := sp.stop_le; omega
            · rw [sp.length_eq]; simp
            · intro j
              rw [sp.slot_eq j]
              by_cases hji : j = i
              · subst hji
                have : ¬ (j + 1 ≤ j ∧ j < stop) := by omega
                rw [if_neg this, if_pos ⟨le_refl _, by omega⟩, hs]
                simp [slot_set_self _ hlt]
              · have : (i + 1 ≤ j ∧ j < stop) ↔ (i ≤ j ∧ j < stop) := by omega
                simp only [this, hslot j hji]
            · intro j hj1 hj2
              by_cases hji : j = i
              · subst hji; simp [loadedAt, hs]
              · have := sp.loaded j (by omega) hj2
                simpa [loadedAt, hslot j hji] using this
            · rw [sp.log_eq, hrange, List.filter_cons]
              have hfilter : (List.range' (i + 1) (stop - (i + 1))).filter
                    (fun j => !executedAt (env.result.set i (some (markExecuted sc))) j)
                  = (List.range' (i + 1) (stop - (i + 1))).filter
                    (fun j => !executedAt env.result j) := by
                apply List.filter_congr
                intro j hj
                rw [List.mem_range'_1] at hj
                rw [hexec j (by omega)]
              simp [hexi, hfilter]
            · intro hnone
              rcases sp.ended hnone with h | h
              · left; omega
              · right
                by_cases hsi : stop = i
                · omega
                · rw [← hslot stop hsi]; exact h
            · intro err herr
              obtain ⟨h2, sc2, w2, h3, h4, h5⟩ := sp.raised err herr
              refine ⟨by omega, sc2, w2, ?_, h4, h5⟩
              rw [← hslot stop (by omega)]; exact h3
            · intro j sc2 hj1 hj2 hsl hex
              by_cases hji : j = i
              · subst hji
                rw [hs] at hsl
                cases hsl
                exact ⟨env.world, by rw [hr]⟩
              · exact sp.returned j sc2 (by omega) hj2 (by rw [hslot j hji]; exact hsl) hex

/-! ## Consequences of the description of the loop -/

theorem CheckSpec.loadedAt_out {W E : Type}
    {run : W → JSString → Option JSString → W × Option E} {k i : Nat} {env : Env W}
    {out : Env W × Option E} {stop : Nat} (sp : CheckSpec run k i env out stop) (j : Nat) :
    loadedAt out.1.result j = loadedAt env.result j := by
  unfold loadedAt
  rw [sp.slot_eq j]
  split <;> simp

theorem CheckSpec.executedAt_out {W E : Type}
    {run : W → JSString → Option JSString → W × Option E} {k i : Nat} {env : Env W}
    {out : Env W × Option E} {stop : Nat} (sp : CheckSpec run k i env out stop) (j : Nat) :
    executedAt out.1.result j = true ↔ (i ≤ j ∧ j < stop) ∨ executedAt env.result j = true := by
  by_cases h : i ≤ j ∧ j < stop
  · have hl := sp.loaded j h.1 h.2
    unfold loadedAt at hl
    unfold executedAt
    rw [sp.slot_eq j, if_pos h]
    cases hs : slot env.result j with
    | none => simp [hs] at hl
    | some sc => simp [markExecuted, h]
  · unfold executedAt
    rw [sp.slot_eq j, if_neg h]
    simp [h]

/-- The entries that one run of the loop appends to the log: ascending
positions from `i` to `stop`, none of them executed before, all but a last
entry at `stop` being calls that returned. -/
theorem CheckSpec.log_out {W E : Type}
    {run : W → JSString → Option JSString → W × Option E} {k i : Nat} {env : Env W}
    {out : Env W × Option E} {stop : Nat} (sp : CheckSpec run k i env out stop) :
    ∃ added, out.1.log = env.log ++ added ∧
      added.Pairwise (fun a b => a.1 < b.1) ∧
      ∀ x ∈ added, i ≤ x.1 ∧ x.1 ≤ stop ∧ executedAt env.result x.1 = false ∧
        loadedAt env.result x.1 = true ∧
        (x.2 = true → x.1 < stop) ∧ (x.2 = false → x.1 = stop ∧ out.2.isSome = true) := by
  refine ⟨((List.range' i (stop - i)).filter (fun j => !executedAt env.result j)).map
      (fun j => (j, true)) ++ (if out.2.isSome then [(stop, false)] else []), ?_, ?_, ?_⟩
  · rw [sp.log_eq, List.append_assoc]
  · rw [List.pairwise_append]
    refine ⟨?_, ?_, ?_⟩
    · rw [List.pairwise_map]
      apply List.Pairwise.filter
      exact (List.pairwise_lt_range' i (stop - i)).imp (fun h => h)
    · split <;> simp
    · intro a ha b hb
      simp only [List.mem_map, List.mem_filter, List.mem_range'_1] at ha
      obtain ⟨j, ⟨⟨_, hj⟩, _⟩, rfl⟩ := ha
      split at hb
      · simp only [List.mem_singleton] at hb
        subst hb
        simp only
        omega
      · simp at hb
  · intro x hx
    rw [List.mem_append] at hx
    rcases hx with hx | hx
    · simp only [List.mem_map, List.mem_filter, List.mem_range'_1] at hx
      obtain ⟨j, ⟨⟨hj1, hj2⟩, hj3⟩, rfl⟩ := hx
      have hj4 : j < stop := by omega
      refine ⟨hj1, by omega, by simpa using hj3, sp.loaded j hj1 hj4, fun _ => hj4, ?_⟩
      intro h; cases h
    · split at hx
      · rename_i hsome
        simp only [List.mem_singleton] at hx
        subst hx
        obtain ⟨err, herr⟩ := Option.isSome_iff_exists.1 hsome
        obtain ⟨_, sc, w, h1, h2, _⟩ := sp.raised err herr
        refine ⟨sp.le_stop, le_refl _, by simp [executedAt, h1, h2], by simp [loadedAt, h1], ?_, ?_⟩
        · intro h; cases h
        · intro _; exact ⟨rfl, hsome⟩
      · simp at hx

/-! ## States reached when each position is notified at most once -/

theorem executedAt_le_loadedAt {r : List (Option Script)} {i : Nat}
    (h : executedAt r i = true) : loadedAt r i = true := by
  obtain ⟨sc, hs, _⟩ := executedAt_eq_true.1 h
  simp [loadedAt, hs]

theorem executedAt_set_fresh {r : List (Option Script)} {i : Nat} (c : JSString)
    (u : Option JSString) (h : loadedAt r i = false) (j : Nat) :
    executedAt (r.set i (some { executed := false, content := c, url := u })) j
      = executedAt r j := by
  by_cases hji : j = i
  · subst hji
    have h0 : executedAt r j = false := by
      cases hx : executedAt r j with
      | false => rfl
      | true => rw [executedAt_le_loadedAt hx] at h; cases h
    rw [h0]
    by_cases hlt : j < r.length
    · simp [executedAt, slot_set_self _ hlt]
    · rw [List.set_eq_of_length_le (by omega)]; exact h0
  · simp [executedAt, slot_set_of_ne _ hji]

theorem loadedAt_set_fresh {r : List (Option Script)} {i : Nat} (v : Option Script) (j : Nat)
    (h : loadedAt (r.set i v) j = true) : j = i ∨ loadedAt r j = true := by
  by_cases hji : j = i
  · exact Or.inl hji
  · right
    simpa [loadedAt, slot_set_of_ne _ hji] using h

theorem loadedAt_set_mono {r : List (Option Script)} {i : Nat} (sc : Script) (j : Nat)
    (h : loadedAt r j = true) : loadedAt (r.set i (some sc)) j = true := by
  by_cases hji : j = i
  · subst hji
    have hlt : j < r.length := by
      unfold loadedAt at h
      obtain ⟨sc2, hs⟩ := Option.isSome_iff_exists.1 h
      exact slot_lt_length hs
    simp [loadedAt, slot_set_self _ hlt]
  · simpa [loadedAt, slot_set_of_ne _ hji] using h

theorem traceInv_init {W : Type} (count : Nat) (w : W) :
    TraceInv count (initEnv count w) [] where
  length_eq := by simp [initEnv]
  closed := by
    intro i j _ h
    simp [initEnv, executedAt, slot_replicate_none] at h
  loaded_mem := by
    intro i h
    simp [initEnv, loadedAt, slot_replicate_none] at h
  logged := by intro x hx; simp [initEnv] at hx
  log_ok := by intro x hx; simp [initEnv] at hx
  once := by simp [initEnv]

theorem traceInv_set {W : Type} {count : Nat} {env : Env W} {ps : List Nat}
    (inv : TraceInv count env ps) (i : Nat) (c : JSString) (u : Option JSString)
    (hi : i ∉ ps) :
    TraceInv count
      { env with result := env.result.set i (some { executed := false, content := c, url := u }) }
      (i :: ps) := by
  have hnl : loadedAt env.result i = false := by
    cases hx : loadedAt env.result i with
    | false => rfl
    | true => exact absurd (inv.loaded_mem i hx) hi
  have hex := executedAt_set_fresh c u hnl
  constructor
  · simpa using inv.length_eq
  · intro a b hab hb
    simp only [hex] at hb ⊢
    exact inv.closed a b hab hb
  · intro j hj
    rcases loadedAt_set_fresh _ j hj with h | h
    · simp [h]
    · exact List.mem_cons_of_mem _ (inv.loaded_mem j h)
  · intro x hx
    obtain ⟨h1, h2⟩ := inv.logged x hx
    refine ⟨loadedAt_set_mono _ _ h1, ?_⟩
    intro j hj
    simp only [hex]
    exact h2 j hj
  · intro x hx hok
    simp only [hex]
    exact inv.log_ok x hx hok
  · exact inv.once

theorem traceInv_check {W E : Type} (run : W → JSString → Option JSString → W × Option E)
    {count : Nat} {env : Env W} {ps : List Nat} (inv : TraceInv count env ps) :
    TraceInv count (check run count env).1 ps := by
  obtain ⟨stop, sp⟩ := checkLoop_spec run count 0 env
  obtain ⟨added, hlog, hasc, hadded⟩ := sp.log_out
  have hex := sp.executedAt_out
  have hld := sp.loadedAt_out
  unfold check
  constructor
  · rw [sp.length_eq]; exact inv.length_eq
  · intro a b hab hb
    rw [hex] at hb ⊢
    rcases hb with hb | hb
    · left; omega
    · right; exact inv.closed a b hab hb
  · intro j hj
    rw [hld] at hj
    exact inv.loaded_mem j hj
  · intro x hx
    rw [hlog, List.mem_append] at hx
    rcases hx with hx | hx
    · obtain ⟨h1, h2⟩ := inv.logged x hx
      refine ⟨by rw [hld]; exact h1, ?_⟩
      intro j hj
      rw [hex]
      exact Or.inr (h2 j hj)
    · obtain ⟨_, h2, _, h4, _, _⟩ := hadded x hx
      refine ⟨by rw [hld]; exact h4, ?_⟩
      intro j hj
      rw [hex]
      left; omega
  · intro x hx hok
    rw [hlog, List.mem_append] at hx
    rw [hex]
    rcases hx with hx | hx
    · exact Or.inr (inv.log_ok x hx hok)
    · obtain ⟨_, _, _, _, h5, _⟩ := hadded x hx
      left
      exact ⟨Nat.zero_le _, h5 hok⟩
  · rw [hlog, List.pairwise_append]
    refine ⟨inv.once, List.Pairwise.imp (fun {a b} (h : a.1 < b.1) (_ : a.2 = true) => Nat.ne_of_lt h) hasc, ?_⟩
    intro a ha b hb hok heq
    have h1 := inv.log_ok a ha hok
    obtain ⟨_, _, h3, _, _, _⟩ := hadded b hb
    rw [heq, h3] at h1
    cases h1

theorem traceInv_step {W E : Type} (run : W → JSString → Option JSString → W × Option E)
    {count : Nat} {env : Env W} {ps : List Nat} (inv : TraceInv count env ps) (ev : Event)
    (hev : ∀ i ∈ loadPositions [ev], i ∉ ps) :
    TraceInv count (step run count env ev).1 (loadPositions [ev] ++ ps) := by
  cases ev with
  | load i c u =>
    have hi : i ∉ ps := hev i (by simp [loadPositions])
    exact traceInv_check run (traceInv_set inv i c u hi)
  | drain => exact traceInv_check run inv

theorem loadPositions_cons (ev : Event) (evs : List Event) :
    loadPositions (ev :: evs) = loadPositions [ev] ++ loadPositions evs := by
  cases ev <;> simp [loadPositions]

theorem traceInv_runEvents {W E : Type} (run : W → JSString → Option JSString → W × Option E)
    {count : Nat} (evs : List Event) :
    ∀ {env : Env W} {ps : List Nat}, TraceInv count env ps →
      (loadPositions evs).Nodup → (∀ i ∈ loadPositions evs, i ∉ ps) →
      TraceInv count (runEvents run count env evs) ((loadPositions evs).reverse ++ ps) := by
  induction evs with
  | nil =>
    intro env ps inv _ _
    simpa [runEvents, loadPositions] using inv
  | cons ev evs ih =>
    intro env ps inv hnd hps
    rw [loadPositions_cons] at hnd hps
    rw [List.nodup_append] at hnd
    obtain ⟨_, hnd2, hdisj⟩ := hnd
    have h1 := traceInv_step run inv ev (fun i hi => hps i (List.mem_append_left _ hi))
    have h2 := ih h1 hnd2 (by
      intro i hi hmem
      rw [List.mem_append] at hmem
      rcases hmem with hmem | hmem
      · exact hdisj hmem hi
      · exact hps i (List.mem_append_right _ hi) hmem)
    have hrev : (loadPositions [ev]).reverse = loadPositions [ev] := by
      cases ev <;> simp [loadPositions]
    rw [loadPositions_cons, List.reverse_append, List.append_assoc, hrev]
    simpa [runEvents] using h2

/-- The states reached from the all-pending state. -/
theorem traceInv_reached {W E : Type} (run : W → JSString → Option JSString → W × Option E)
    (count : Nat) (w : W) (evs : List Event) (hnodup : (loadPositions evs).Nodup) :
    TraceInv count (runEvents run count (initEnv count w) evs) (loadPositions evs).reverse := by
  have h := traceInv_runEvents run evs (traceInv_init count w) hnodup (by simp)
  simpa using h

/-- A drain that finds no loaded slot waiting leaves everything as it was. -/
theorem checkLoop_idle {W E : Type} (run : W → JSString → Option JSString → W × Option E)
    (env : Env W) (h : ∀ j, loadedAt env.result j = true → executedAt env.result j = true) :
    ∀ (k i : Nat), checkLoop run k i env = (env, none) := by
  intro k
  induction k with
  | zero => intro i; rfl
  | succ k ih =>
    intro i
    cases hs : slot env.result i with
    | none => simp [checkLoop, hs]
    | some sc =>
      have hx : sc.executed = true := by
        have := h i (by simp [loadedAt, hs])
        simpa [executedAt, hs] using this
      simp [checkLoop, hs, hx, ih]

/-! ## States reached when, in addition, no call of `run` raises -/

theorem filter_range_of_executed_iff (r : List (Option Script)) (k stop : Nat) (hk : k ≤ stop)
    (h : ∀ j, executedAt r j = true ↔ j < k) :
    (List.range' 0 (stop - 0)).filter (fun j => !executedAt r j) = List.range' k (stop - k) := by
  have hsplit : List.range' 0 (stop - 0) = List.range' 0 k ++ List.range' k (stop - k) := by
    have : stop - 0 = (stop - k) + k := by omega
    rw [this, ← List.range'_append_1]
    simp
  rw [hsplit, List.filter_append]
  have h1 : (List.range' 0 k).filter (fun j => !executedAt r j) = [] := by
    rw [List.filter_eq_nil_iff]
    intro j hj
    rw [List.mem_range'_1] at hj
    have := (h j).2 (by omega)
    simp [this]
  have h2 : (List.range' k (stop - k)).filter (fun j => !executedAt r j)
      = List.range' k (stop - k) := by
    rw [List.filter_eq_self]
    intro j hj
    rw [List.mem_range'_1] at hj
    have : executedAt r j = false := by
      cases hx : executedAt r j with
      | false => rfl
      | true => have := (h j).1 hx; omega
    simp [this]
  rw [h1, h2, List.nil_append]

theorem order_check {W E : Type} (run : W → JSString → Option JSString → W × Option E)
    (hrun : ∀ w c u, (run w c u).2 = none) {count : Nat} {env : Env W} {ps : List Nat} {k : Nat}
    (hlen : env.result.length = count)
    (hexec : ∀ j, executedAt env.result j = true ↔ j < k)
    (hlog : env.log = (List.range k).map (fun j => (j, true)))
    (hloaded : ∀ j, loadedAt env.result j = true ↔ (j ∈ ps ∧ j < count)) :
    ∃ k2, OrderInv count (check run count env).1 ps k2 := by
  obtain ⟨stop, sp⟩ := checkLoop_spec run count 0 env
  unfold check
  have hnone : (checkLoop run count 0 env).2 = none := by
    cases herr : (checkLoop run count 0 env).2 with
    | none => rfl
    | some err =>
      obtain ⟨_, sc, w, _, _, h3⟩ := sp.raised err herr
      have := hrun w sc.content sc.url
      rw [h3] at this
      cases this
  have hkc : k ≤ count := by
    by_contra hlt
    have h1 := executedAt_le_loadedAt ((hexec count).2 (by omega))
    have := ((hloaded count).1 h1).2
    omega
  have hstop : k ≤ stop := by
    by_contra hlt
    rcases sp.ended hnone with h | h
    · omega
    · have h1 := (hexec stop).2 (by omega)
      simp [executedAt, h] at h1
  refine ⟨stop, ?_⟩
  constructor
  · rw [sp.length_eq]; exact hlen
  · intro j
    rw [sp.executedAt_out, hexec]
    omega
  · rw [sp.log_eq, hnone, hlog, filter_range_of_executed_iff env.result k stop hstop hexec]
    have : List.range stop = List.range k ++ List.range' k (stop - k) := by
      rw [List.range_eq_range', List.range_eq_range']
      have : stop = (stop - k) + k := by omega
      conv_lhs => rw [this]
      rw [← List.range'_append_1]
      simp
    simp [this]
  · intro hlt
    rcases sp.ended hnone with h | h
    · omega
    · rw [sp.slot_eq stop]
      have : ¬ (0 ≤ stop ∧ stop < stop) := by omega
      rw [if_neg this]
      exact h
  · intro j
    rw [sp.loadedAt_out]
    exact hloaded j

theorem order_step {W E : Type} (run : W → JSString → Option JSString → W × Option E)
    (hrun : ∀ w c u, (run w c u).2 = none) {count : Nat} {env : Env W} {ps : List Nat} {k : Nat}
    (inv : OrderInv count env ps k) (ev : Event) (hev : ∀ i ∈ loadPositions [ev], i ∉ ps) :
    ∃ k2, OrderInv count (step run count env ev).1 (loadPositions [ev] ++ ps) k2 := by
  cases ev with
  | drain => exact order_check run hrun inv.length_eq inv.executed_iff inv.log_eq inv.loaded_iff
  | load i c u =>
    have hi : i ∉ ps := hev i (by simp [loadPositions])
    have hnl : loadedAt env.result i = false := by
      cases hx : loadedAt env.result i with
      | false => rfl
      | true => exact absurd ((inv.loaded_iff i).1 hx).1 hi
    apply order_check run hrun
    · simpa using inv.length_eq
    · intro j
      simp only [executedAt_set_fresh c u hnl]
      exact inv.executed_iff j
    · exact inv.log_eq
    · intro j
      simp only [loadPositions, List.singleton_append, List.mem_cons]
      by_cases hji : j = i
      · subst hji
        by_cases hlt : j < count
        · have hl : j < env.result.length := by rw [inv.length_eq]; exact hlt
          simp [loadedAt, slot_set_self _ hl, hlt]
        · rw [List.set_eq_of_length_le (by rw [inv.length_eq]; omega)]
          simp [hnl, hlt]
      · simp only [loadedAt, slot_set_of_ne _ hji, hji, false_or]
        exact inv.loaded_iff j

theorem order_runEvents {W E : Type} (run : W → JSString → Option JSString → W × Option E)
    (hrun : ∀ w c u, (run w c u).2 = none) {count : Nat} (evs : List Event) :
    ∀ {env : Env W} {ps : List Nat} {k : Nat}, OrderInv count env ps k →
      (loadPositions evs).Nodup → (∀ i ∈ loadPositions evs, i ∉ ps) →
      ∃ k2, OrderInv count (runEvents run count env evs) ((loadPositions evs).reverse ++ ps) k2 := by
  induction evs with
  | nil =>
    intro env ps k inv _ _
    exact ⟨k, by simpa [runEvents, loadPositions] using inv⟩
  | cons ev evs ih =>
    intro env ps k inv hnd hps
    rw [loadPositions_cons] at hnd hps
    rw [List.nodup_append] at hnd
    obtain ⟨_, hnd2, hdisj⟩ := hnd
    obtain ⟨k1, h1⟩ := order_step run hrun inv ev (fun i hi => hps i (List.mem_append_left _ hi))
    obtain ⟨k2, h2⟩ := ih h1 hnd2 (by
      intro i hi hmem
      rw [List.mem_append] at hmem
      rcases hmem with hmem | hmem
      · exact hdisj hmem hi
      · exact hps i (List.mem_append_right _ hi) hmem)
    have hrev : (loadPositions [ev]).reverse = loadPositions [ev] := by
      cases ev <;> simp [loadPositions]
    refine ⟨k2, ?_⟩
    rw [loadPositions_cons, List.reverse_append, List.append_assoc, hrev]
    simpa [runEvents] using h2

theorem orderInv_init {W : Type} (count : Nat) (w : W) :
    OrderInv count (initEnv count w) [] 0 where
  length_eq := by simp [initEnv]
  executed_iff := by
    intro j
    simp [initEnv, executedAt, slot_replicate_none]
  log_eq := by simp [initEnv]
  next_pending := by
    intro _
    simp [initEnv, slot_replicate_none]
  loaded_iff := by
    intro j
    simp [initEnv, loadedAt, slot_replicate_none]

/-! ## A slot that cannot be executed blocks the slots above it -/

theorem blockedInv_check {W E : Type} (run : W → JSString → Option JSString → W × Option E)
    (count p : Nat) {env : Env W} (inv : BlockedInv run p env) :
    BlockedInv run p (check run count env).1 := by
  obtain ⟨stop, sp⟩ := checkLoop_spec run count 0 env
  obtain ⟨added, hlog, _, hadded⟩ := sp.log_out
  unfold check
  have hstop : stop ≤ p := by
    by_contra hlt
    have hl := sp.loaded p (Nat.zero_le _) (by omega)
    rcases inv.stuck with h | ⟨sc, h1, h2, h3⟩
    · simp [loadedAt, h] at hl
    · obtain ⟨w, hw⟩ := sp.returned p sc (Nat.zero_le _) (by omega) h1 h2
      exact h3 w hw
  have hsame : slot (checkLoop run count 0 env).1.result p = slot env.result p := by
    rw [sp.slot_eq p, if_neg (by omega)]
  constructor
  · rw [hsame]; exact inv.stuck
  · intro j hj
    cases hx : executedAt (checkLoop run count 0 env).1.result j with
    | false => rfl
    | true =>
      rcases (sp.executedAt_out j).1 hx with h | h
      · omega
      · rw [inv.above j hj] at h; cases h
  · intro x hx
    rw [hlog, List.mem_append] at hx
    rcases hx with hx | hx
    · exact inv.log_le x hx
    · have := (hadded x hx).2.1
      omega

theorem blockedInv_step {W E : Type} (run : W → JSString → Option JSString → W × Option E)
    (count p : Nat) {env : Env W} (inv : BlockedInv run p env) (ev : Event)
    (hev : ∀ c u, ev = Event.load p c u → ∀ w, (run w c u).2 ≠ none) :
    BlockedInv run p (step run count env ev).1 := by
  cases ev with
  | drain => exact blockedInv_check run count p inv
  | load i c u =>
    apply blockedInv_check
    constructor
    · by_cases hip : p = i
      · subst hip
        by_cases hlt : p < env.result.length
        · right
          exact ⟨_, slot_set_self _ hlt, rfl, hev c u rfl⟩
        · simp only
          rw [List.set_eq_of_length_le (by omega)]
          exact inv.stuck
      · simp only
        rw [slot_set_of_ne _ hip]
        exact inv.stuck
    · intro j hj
      by_cases hji : j = i
      · subst hji
        by_cases hlt : j < env.result.length
        · simp [executedAt, slot_set_self _ hlt]
        · simp only
          rw [List.set_eq_of_length_le (by omega)]
          exact inv.above j hj
      · simp only [executedAt, slot_set_of_ne _ hji]
        exact inv.above j hj
    · exact inv.log_le

theorem blockedInv_runEvents {W E : Type} (run : W → JSString → Option JSString → W × Option E)
    (count p : Nat) (evs : List Event) :
    ∀ {env : Env W}, BlockedInv run p env →
      (∀ c u, Event.load p c u ∈ evs → ∀ w, (run w c u).2 ≠ none) →
      BlockedInv run p (runEvents run count env evs) := by
  induction evs with
  | nil => intro env inv _; exact inv
  | cons ev evs ih =>
    intro env inv hev
    apply ih
    · exact blockedInv_step run count p inv ev
        (fun c u h => hev c u (by rw [h]; exact List.mem_cons_self _ _))
    · intro c u h
      exact hev c u (List.mem_cons_of_mem _ h)

/-! ## The first call of `run` in a drain -/

/-- When every slot from `i` up to `p` is executed and slot `p` is loaded and
not executed, the first call of `run` that the loop makes is for `p`. -/
theorem checkLoop_first {W E : Type} (run : W → JSString → Option JSString → W × Option E)
    (p : Nat) (sc : Script) (hsc : sc.executed = false) :
    ∀ (k i : Nat) (env : Env W), i ≤ p → p < i + k →
      (∀ j, i ≤ j → j < p → executedAt env.result j = true) →
      slot env.result p = some sc →
      ∃ ok rest, (checkLoop run k i env).1.log = env.log ++ (p, ok) :: rest := by
  intro k
  induction k with
  | zero => intro i env h1 h2; omega
  | succ k ih =>
    intro i env h1 h2 hlow hp
    by_cases hip : i = p
    · subst hip
      cases hr : run env.world sc.content sc.url with
      | mk w oerr =>
        cases oerr with
        | some err =>
          exact ⟨false, [], by simp [checkLoop, hp, hsc, hr]⟩
        | none =>
          obtain ⟨stop, sp⟩ := checkLoop_spec run k (i + 1)
            { result := env.result.set i (some (markExecuted sc)),
              world := w, log := env.log ++ [(i, true)] }
          obtain ⟨added, hlog, _, _⟩ := sp.log_out
          refine ⟨true, added, ?_⟩
          have hout : checkLoop run (k + 1) i env = checkLoop run k (i + 1)
              { result := env.result.set i (some (markExecuted sc)),
                world := w, log := env.log ++ [(i, true)] } := by
            simp [checkLoop, hp, hsc, hr]
          rw [hout, hlog]
          simp
    · obtain ⟨sc2, hs2, hx2⟩ := executedAt_eq_true.1 (hlow i (le_refl _) (by omega))
      have hout : checkLoop run (k + 1) i env = checkLoop run k (i + 1) env := by
        simp [checkLoop, hs2, hx2]
      rw [hout]
      exact ih (i + 1) env (by omega) (by omega) (fun j hj1 hj2 => hlow j (by omega) hj2) hp

/-! ## A drain that ends with an error -/

/-- A drain that ends with an error stopped at the slot for which `run` raised
that error. -/
theorem check_ends_raised {W E : Type}
    (run : W → JSString → Option JSString → W × Option E) (count : Nat)
    (env out : Env W) (err : E) (h : check run count env = (out, some err)) :
    ∃ p sc w, p < count ∧ slot env.result p = some sc ∧ sc.executed = false ∧
      run w sc.content sc.url = (out.world, some err) ∧
      slot out.result p = some sc ∧ executedAt out.result p = false ∧
      (∃ before, out.log = env.log ++ before ++ [(p, false)] ∧
        ∀ x ∈ before, x.1 < p ∧ x.2 = true) ∧
      (∀ j, executedAt env.result j = true → executedAt out.result j = true) ∧
      (∀ j, j < p → executedAt out.result j = true) ∧
      (∀ j, p < j → slot out.result j = slot env.result j) := by
  obtain ⟨stop, sp⟩ := checkLoop_spec run count 0 env
  unfold check at h
  rw [h] at sp
  obtain ⟨h1, sc, w, h2, h3, h4⟩ := sp.raised err rfl
  have hsame : ∀ j, stop ≤ j → slot out.result j = slot env.result j := by
    intro j hj
    have := sp.slot_eq j
    rw [if_neg (by omega)] at this
    exact this
  refine ⟨stop, sc, w, by omega, h2, h3, h4, ?_, ?_, ?_, ?_, ?_, ?_⟩
  · rw [← h2]; exact hsame stop (le_refl _)
  · have := hsame stop (le_refl _)
    simp only at this
    simp [executedAt, this, h2, h3]
  · refine ⟨((List.range' 0 (stop - 0)).filter (fun j => !executedAt env.result j)).map
        (fun j => (j, true)), ?_, ?_⟩
    · have := sp.log_eq
      simp only [Option.isSome_some, if_true] at this
      exact this
    · intro x hx
      simp only [List.mem_map, List.mem_filter, List.mem_range'_1] at hx
      obtain ⟨j, ⟨⟨_, hj⟩, _⟩, rfl⟩ := hx
      exact ⟨by omega, rfl⟩
  · intro j hj
    exact (sp.executedAt_out j).2 (Or.inr hj)
  · intro j hj
    exact (sp.executedAt_out j).2 (Or.inl ⟨Nat.zero_le _, hj⟩)
  · intro j hj
    exact hsame j (by omega)

/-! ## The synchronous part of `loadScripts` as a sequence of events -/

/-- What `loadScripts` does before it returns is a sequence of load events: those
of the inline elements, in document order, up to the first whose callback
raises. -/
theorem forEachScript_events {W E : Type} (run : W → JSString → Option JSString → W × Option E)
    (count : Nat) (scripts : List ScriptElement) :
    ∀ (i : Nat) (env : Env W) (issued : List (Nat × JSString)),
      ∃ evs rest, inlineEvents scripts i = evs ++ rest ∧
        (forEachScript run count scripts i env issued).1.1 = runEvents run count env evs ∧
        ((forEachScript run count scripts i env issued).2 = none → rest = []) := by
  induction scripts with
  | nil =>
    intro i env issued
    exact ⟨[], [], rfl, rfl, fun _ => rfl⟩
  | cons script rest ih =>
    intro i env issued
    by_cases hsrc : script.src ≠ []
    · obtain ⟨evs, tl, h1, h2, h3⟩ := ih (i + 1) env (issued ++ [(i, script.src)])
      refine ⟨evs, tl, ?_, ?_, ?_⟩
      · simpa [inlineEvents, hsrc] using h1
      · simpa [forEachScript, hsrc] using h2
      · simpa [forEachScript, hsrc] using h3
    · cases hcb : loadCallback run count i script.innerHTML none env with
      | mk env1 oerr =>
        cases oerr with
        | some err =>
          refine ⟨[Event.load i script.innerHTML none], inlineEvents rest (i + 1), ?_, ?_, ?_⟩
          · simp [inlineEvents, hsrc]
          · simp [forEachScript, hsrc, hcb, runEvents, step]
          · simp [forEachScript, hsrc, hcb]
        | none =>
          obtain ⟨evs, tl, h1, h2, h3⟩ := ih (i + 1) env1 issued
          refine ⟨Event.load i script.innerHTML none :: evs, tl, ?_, ?_, ?_⟩
          · simp [inlineEvents, hsrc, h1]
          · simpa [forEachScript, hsrc, hcb, runEvents, step] using h2
          · simpa [forEachScript, hsrc, hcb] using h3

/-! ## The claims about `loadScripts` -/

/-- C1. Order invariant: for every `N` and every order in which the contents of
the `N` slots arrive, each load callback firing exactly once and no call of
`run` raising, the positions passed to `run` over the whole trace are exactly
`0, 1, ..., N - 1`, in this order. -/
theorem execution_order {W E : Type}
    (run : W → JSString → Option JSString → W × Option E) (N : Nat) (w : W)
    (evs : List Event) (hperm : (loadPositions evs).Perm (List.range N))
    (hrun : ∀ w c u, (run w c u).2 = none) :
    positionsRun (runEvents run N (initEnv N w) evs) = List.range N := by
  have hnd : (loadPositions evs).Nodup := hperm.nodup_iff.2 (List.nodup_range N)
  obtain ⟨k, inv⟩ := order_runEvents run hrun evs (orderInv_init N w) hnd (by simp)
  have hkN : k = N := by
    have h1 : k ≤ N := by
      by_contra hlt
      have h2 := executedAt_le_loadedAt ((inv.executed_iff N).2 (by omega))
      have := ((inv.loaded_iff N).1 h2).2
      omega
    by_contra hne
    have hlt : k < N := by omega
    have h3 := inv.next_pending hlt
    have h4 : loadedAt (runEvents run N (initEnv N w) evs).result k = true := by
      rw [inv.loaded_iff]
      refine ⟨?_, hlt⟩
      simp only [List.append_nil, List.mem_reverse]
      exact hperm.mem_iff.2 (List.mem_range.2 hlt)
    simp [loadedAt, h3] at h4
  subst hkN
  unfold positionsRun
  rw [inv.log_eq, List.map_map]
  simp [Function.comp_def]

/-- Contents arriving in the order 2, 0, 1 are run in the order 0, 1, 2. -/
theorem execution_order_witness :
    positionsRun (runEvents runOk 3 (initEnv 3 0)
      [Event.load 2 (utf16 "c") none, Event.load 0 (utf16 "a") none,
        Event.load 1 (utf16 "b") (some (utf16 "b.js"))]) = [0, 1, 2] :=
  execution_order runOk 3 0
    [Event.load 2 (utf16 "c") none, Event.load 0 (utf16 "a") none,
      Event.load 1 (utf16 "b") (some (utf16 "b.js"))]
    (by decide) (fun _ _ _ => rfl)



/-- C2. Prefix and gap-blocking invariant: in every state reached from the
all-pending state by load callbacks and drains, each position notified at most
once and `run` free to raise, a slot is executed only if every slot at a lower
position is executed; so while a lower slot is pending or not yet executed, no
higher slot is executed, loaded or not. -/
theorem executed_only_after_lower {W E : Type}
    (run : W → JSString → Option JSString → W × Option E) (count : Nat) (w : W)
    (evs : List Event) (hnodup : (loadPositions evs).Nodup) (i j : Nat) (hij : i < j) :
    (executedAt (runEvents run count (initEnv count w) evs).result j = true →
      executedAt (runEvents run count (initEnv count w) evs).result i = true) ∧
    (executedAt (runEvents run count (initEnv count w) evs).result i = false →
      executedAt (runEvents run count (initEnv count w) evs).result j = false) ∧
    (loadedAt (runEvents run count (initEnv count w) evs).result i = false →
      executedAt (runEvents run count (initEnv count w) evs).result j = false) := by
  have inv := traceInv_reached run count w evs hnodup
  have h1 := inv.closed i j hij
  refine ⟨h1, ?_, ?_⟩
  · intro hi
    cases hj : executedAt (runEvents run count (initEnv count w) evs).result j with
    | false => rfl
    | true => rw [h1 hj] at hi; cases hi
  · intro hi
    cases hj : executedAt (runEvents run count (initEnv count w) evs).result j with
    | false => rfl
    | true => rw [executedAt_le_loadedAt (h1 hj)] at hi; cases hi

/-- Slot 2 arrives before slot 1: it is loaded but not executed. -/
theorem executed_only_after_lower_witness :
    loadedAt (runEvents (runUnless (utf16 "bad")) 3 (initEnv 3 0)
        [Event.load 2 (utf16 "c") none, Event.load 0 (utf16 "a") none]).result 2 = true ∧
    executedAt (runEvents (runUnless (utf16 "bad")) 3 (initEnv 3 0)
        [Event.load 2 (utf16 "c") none, Event.load 0 (utf16 "a") none]).result 2 = false :=
  ⟨by decide,
   (executed_only_after_lower (runUnless (utf16 "bad")) 3 0
      [Event.load 2 (utf16 "c") none, Event.load 0 (utf16 "a") none] (by decide) 1 2
      (by decide)).2.2 (by decide)⟩

/-- C3, as stated, fails: position 0 is notified once, `run` raises for it, and
one further drain passes position 0 to `run` a second time; so does, without
any further drain, the load callback of another position. -/
theorem run_twice_after_raise :
    (loadPositions [Event.load 0 (utf16 "bad") none, Event.drain] = [0] ∧
      positionsRun (runEvents (runUnless (utf16 "bad")) 1 (initEnv 1 0)
        [Event.load 0 (utf16 "bad") none, Event.drain]) = [0, 0] ∧
      ¬ (positionsRun (runEvents (runUnless (utf16 "bad")) 1 (initEnv 1 0)
        [Event.load 0 (utf16 "bad") none, Event.drain])).Nodup) ∧
    (loadPositions [Event.load 1 (utf16 "b") none, Event.load 0 (utf16 "bad") none,
        Event.load 2 (utf16 "c") none] = [1, 0, 2] ∧
      positionsRun (runEvents (runUnless (utf16 "bad")) 3 (initEnv 3 0)
        [Event.load 1 (utf16 "b") none, Event.load 0 (utf16 "bad") none,
          Event.load 2 (utf16 "c") none]) = [0, 0]) := by
  decide

/-- C3, amended. At-most-once execution: for every trace in which each position
is notified at most once, interleaved with any number of drains, no position
is passed to `run` again after a call of `run` for it has returned; hence, when
no call in the trace raised, every position is passed to `run` at most once.
A drain invoked when no slot is loaded but unexecuted runs nothing and leaves
the slot table, the world and the log unchanged. -/
theorem run_once_after_return {W E : Type}
    (run : W → JSString → Option JSString → W × Option E) (count : Nat) (w : W)
    (evs : List Event) (hnodup : (loadPositions evs).Nodup) :
    (runEvents run count (initEnv count w) evs).log.Pairwise
        (fun a b => a.2 = true → a.1 ≠ b.1) ∧
    ((∀ x ∈ (runEvents run count (initEnv count w) evs).log, x.2 = true) →
      (positionsRun (runEvents run count (initEnv count w) evs)).Nodup) ∧
    (∀ env : Env W, (∀ j, loadedAt env.result j = true → executedAt env.result j = true) →
      check run count env = (env, none)) := by
  have inv := traceInv_reached run count w evs hnodup
  refine ⟨inv.once, ?_, ?_⟩
  · intro hall
    unfold positionsRun
    unfold List.Nodup
    rw [List.pairwise_map]
    exact List.Pairwise.imp_of_mem (fun {a b} ha _ h => h (hall a ha)) inv.once
  · intro env h
    exact checkLoop_idle run env h count 0

/-- Contents arriving in the order 1, 0 with a drain in between and one after:
each position is passed to `run` once. -/
theorem run_once_after_return_witness :
    (positionsRun (runEvents runOk 2 (initEnv 2 0)
      [Event.load 1 (utf16 "b") none, Event.drain, Event.load 0 (utf16 "a") none,
        Event.drain])).Nodup :=
  (run_once_after_return runOk 2 0
    [Event.load 1 (utf16 "b") none, Event.drain, Event.load 0 (utf16 "a") none, Event.drain]
    (by decide)).2.1 (by decide)

/-- C4. Failure propagation in the drain: if `run` raises for the slot at
position `p` during a drain (the calls of `run` that the drain adds to the log
contain a call for `p` that raised), then the drain ends with the very error
that `run` raised; slot `p` is left as it was, loaded and not marked executed;
the call for `p` is the last call of the drain and the calls before it are
calls that returned for positions below `p`, so no slot above `p` is run;
every slot below `p` and every slot executed before the drain is executed
afterwards; the slots above `p` are untouched. -/
theorem check_raise {W E : Type}
    (run : W → JSString → Option JSString → W × Option E) (count : Nat)
    (env : Env W) (added : List (Nat × Bool))
    (hadded : (check run count env).1.log = env.log ++ added)
    (p : Nat) (hp : (p, false) ∈ added) :
    ∃ err sc w before, (check run count env).2 = some err ∧
      p < count ∧ slot env.result p = some sc ∧ sc.executed = false ∧
      run w sc.content sc.url = ((check run count env).1.world, some err) ∧
      slot (check run count env).1.result p = some sc ∧
      executedAt (check run count env).1.result p = false ∧
      added = before ++ [(p, false)] ∧
      (∀ x ∈ before, x.1 < p ∧ x.2 = true) ∧
      (∀ j, executedAt env.result j = true →
        executedAt (check run count env).1.result j = true) ∧
      (∀ j, j < p → executedAt (check run count env).1.result j = true) ∧
      (∀ j, p < j → slot (check run count env).1.result j = slot env.result j) := by
  obtain ⟨stop, sp⟩ := checkLoop_spec run count 0 env
  obtain ⟨added2, hlog, _, hmem⟩ := sp.log_out
  have hsame : added = added2 := by
    have h : env.log ++ added = env.log ++ added2 := by
      rw [← hadded]; exact hlog
    exact List.append_cancel_left h
  subst hsame
  obtain ⟨_, hsome⟩ := (hmem (p, false) hp).2.2.2.2.2 rfl
  obtain ⟨err, herr⟩ := Option.isSome_iff_exists.1 hsome
  have hout : check run count env = ((check run count env).1, some err) :=
    Prod.ext rfl herr
  obtain ⟨q, sc, w, h1, h2, h3, h4, h5, h6, ⟨before, h7, h8⟩, h9, h10, h11⟩ :=
    check_ends_raised run count env (check run count env).1 err hout
  have hadd : added = before ++ [(q, false)] := by
    have h : env.log ++ added = env.log ++ (before ++ [(q, false)]) := by
      rw [← hadded, h7, List.append_assoc]
    exact List.append_cancel_left h
  have hpq : p = q := by
    rw [hadd, List.mem_append] at hp
    rcases hp with hp | hp
    · have := (h8 _ hp).2
      cases this
    · simpa using hp
  subst hpq
  exact ⟨err, sc, w, before, herr, h1, h2, h3, h4, h5, h6, hadd, h8, h9, h10, h11⟩

/-- In `stuckEnv` the drain calls `run` for slot 1, which raises: the drain ends
with that error and slot 2, though loaded, is not reached. -/
theorem check_raise_witness :
    ∃ err sc w before, (check (runUnless (utf16 "bad")) 3 stuckEnv).2 = some err ∧
      1 < 3 ∧ slot stuckEnv.result 1 = some sc ∧ sc.executed = false ∧
      runUnless (utf16 "bad") w sc.content sc.url
        = ((check (runUnless (utf16 "bad")) 3 stuckEnv).1.world, some err) ∧
      slot (check (runUnless (utf16 "bad")) 3 stuckEnv).1.result 1 = some sc ∧
      executedAt (check (runUnless (utf16 "bad")) 3 stuckEnv).1.result 1 = false ∧
      [((1 : Nat), false)] = before ++ [(1, false)] ∧
      (∀ x ∈ before, x.1 < 1 ∧ x.2 = true) ∧
      (∀ j, executedAt stuckEnv.result j = true →
        executedAt (check (runUnless (utf16 "bad")) 3 stuckEnv).1.result j = true) ∧
      (∀ j, j < 1 → executedAt (check (runUnless (utf16 "bad")) 3 stuckEnv).1.result j = true) ∧
      (∀ j, 1 < j → slot (check (runUnless (utf16 "bad")) 3 stuckEnv).1.result j
        = slot stuckEnv.result j) :=
  check_raise (runUnless (utf16 "bad")) 3 stuckEnv [(1, false)] rfl 1 (by decide)

/-- C5. Whole-run abort: take a position `p` whose content never arrives (its
fetch failed) or arrives only with content for which `run` raises whatever the
state of the world (its outcome depends only on content and url). Then in no
state of the run, whatever contents of other slots arrived before or arrive
afterwards, is a slot above `p` executed, and no position above `p` is ever
passed to `run`. -/
theorem blocked_after_failure {W E : Type}
    (run : W → JSString → Option JSString → W × Option E) (count : Nat) (w : W)
    (evs : List Event) (p : Nat)
    (hfail : ∀ c u, Event.load p c u ∈ evs → ∀ w, (run w c u).2 ≠ none) (j : Nat)
    (hj : p < j) :
    executedAt (runEvents run count (initEnv count w) evs).result j = false ∧
    j ∉ positionsRun (runEvents run count (initEnv count w) evs) := by
  have init : BlockedInv run p (initEnv count w) := by
    constructor
    · left; simp [initEnv, slot_replicate_none]
    · intro j _; simp [initEnv, executedAt, slot_replicate_none]
    · intro x hx; simp [initEnv] at hx
  have inv := blockedInv_runEvents run count p evs init hfail
  refine ⟨inv.above j hj, ?_⟩
  intro hmem
  unfold positionsRun at hmem
  rw [List.mem_map] at hmem
  obtain ⟨x, hx, rfl⟩ := hmem
  have := inv.log_le x hx
  omega

/-- Slot 2 is loaded first, then `run` raises for slot 0, then slot 1 loads:
slot 2 is never executed. -/
theorem blocked_after_failure_witness :
    executedAt (runEvents (runUnless (utf16 "bad")) 3 (initEnv 3 0)
      [Event.load 2 (utf16 "c") none, Event.load 0 (utf16 "bad") none,
        Event.load 1 (utf16 "b") none]).result 2 = false ∧
    2 ∉ positionsRun (runEvents (runUnless (utf16 "bad")) 3 (initEnv 3 0)
      [Event.load 2 (utf16 "c") none, Event.load 0 (utf16 "bad") none,
        Event.load 1 (utf16 "b") none]) :=
  blocked_after_failure (runUnless (utf16 "bad")) 3 0
    [Event.load 2 (utf16 "c") none, Event.load 0 (utf16 "bad") none,
      Event.load 1 (utf16 "b") none] 0
    (by
      intro c u hmem w
      simp at hmem
      obtain ⟨rfl, _⟩ := hmem
      simp [runUnless])
    2 (by decide)

/-- C6, as stated, fails: `run` raises for slot 0 when its content arrives, and
the load callback of slot 1 passes slot 0 to `run` again. -/
theorem failed_slot_run_again :
    (runEvents (runUnless (utf16 "bad")) 2 (initEnv 2 0)
      [Event.load 0 (utf16 "bad") none]).log = [(0, false)] ∧
    (runEvents (runUnless (utf16 "bad")) 2 (initEnv 2 0)
      [Event.load 0 (utf16 "bad") none, Event.load 1 (utf16 "b") none]).log
        = [(0, false), (0, false)] := by
  decide

/-- C6, amended. A failed transform is retried: in a run in which each position is
notified at most once, after `run` has raised for the slot at position `p` and
as long as that slot is not executed, the next drain invocation or load
callback of a position not yet notified passes slot `p` to `run` again, before
any other slot. -/
theorem raised_slot_is_retried {W E : Type}
    (run : W → JSString → Option JSString → W × Option E) (count : Nat) (w : W)
    (evs : List Event) (hnodup : (loadPositions evs).Nodup) (p : Nat)
    (hraised : (p, false) ∈ (runEvents run count (initEnv count w) evs).log)
    (hnot : executedAt (runEvents run count (initEnv count w) evs).result p = false)
    (ev : Event) (hev : ∀ i ∈ loadPositions [ev], i ∉ loadPositions evs) :
    ∃ ok rest, (step run count (runEvents run count (initEnv count w) evs) ev).1.log
      = (runEvents run count (initEnv count w) evs).log ++ (p, ok) :: rest := by
  have inv := traceInv_reached run count w evs hnodup
  obtain ⟨hl, hlow⟩ := inv.logged (p, false) hraised
  obtain ⟨sc, hsc⟩ := Option.isSome_iff_exists.1 hl
  have hx : sc.executed = false := by
    simpa [executedAt, hsc] using hnot
  have hp : p < count := by
    rw [← inv.length_eq]; exact slot_lt_length hsc
  cases ev with
  | drain =>
    exact checkLoop_first run p sc hx count 0 _ (Nat.zero_le _) (by omega)
      (fun j _ hj => hlow j hj) hsc
  | load i c u =>
    have hi : i ∉ (loadPositions evs).reverse := by
      rw [List.mem_reverse]
      exact hev i (by simp [loadPositions])
    have hnl : loadedAt (runEvents run count (initEnv count w) evs).result i = false := by
      cases hq : loadedAt (runEvents run count (initEnv count w) evs).result i with
      | false => rfl
      | true => exact absurd (inv.loaded_mem i hq) hi
    have hip : p ≠ i := by
      intro h
      rw [← h, hl] at hnl
      cases hnl
    exact checkLoop_first run p sc hx count 0 _ (Nat.zero_le _) (by omega)
      (fun j _ hj => by
        simp only [executedAt_set_fresh c u hnl]
        exact hlow j hj)
      (by simp only; rw [slot_set_of_ne _ hip]; exact hsc)

/-- After `run` raised for slot 0, a further drain passes slot 0 to `run` again. -/
theorem raised_slot_is_retried_witness :
    ∃ ok rest, (step (runUnless (utf16 "bad")) 2
        (runEvents (runUnless (utf16 "bad")) 2 (initEnv 2 0)
          [Event.load 0 (utf16 "bad") none]) Event.drain).1.log
      = (runEvents (runUnless (utf16 "bad")) 2 (initEnv 2 0)
          [Event.load 0 (utf16 "bad") none]).log ++ (0, ok) :: rest :=
  raised_slot_is_retried (runUnless (utf16 "bad")) 2 0 [Event.load 0 (utf16 "bad") none]
    (by decide) 0 (by decide) (by decide) Event.drain (by decide)

/-- C7, as stated, fails: slot 0 is executed after its load callback fired, and
firing that callback again passes slot 0 to `run` a second time. -/
theorem repeated_load_runs_twice :
    executedAt (runEvents runOk 1 (initEnv 1 0)
      [Event.load 0 (utf16 "a") none]).result 0 = true ∧
    (runEvents runOk 1 (initEnv 1 0) [Event.load 0 (utf16 "a") none]).log = [(0, true)] ∧
    (runEvents runOk 1 (initEnv 1 0)
      [Event.load 0 (utf16 "a") none, Event.load 0 (utf16 "a") none]).log
        = [(0, true), (0, true)] := by
  decide

/-- C7, amended. For a slot that is already executed, in a run in which each
position was notified at most once so far: a repeated drain performs no
further action on it (`run` is not invoked for it and it stays executed), but
firing its load callback again stores a fresh record that is not executed, and
the drain of that callback passes the slot to `run` again, before any other
slot. -/
theorem repeated_load_runs_again {W E : Type}
    (run : W → JSString → Option JSString → W × Option E) (count : Nat) (w : W)
    (evs : List Event) (hnodup : (loadPositions evs).Nodup) (p : Nat)
    (hex : executedAt (runEvents run count (initEnv count w) evs).result p = true)
    (c : JSString) (u : Option JSString) :
    (executedAt (check run count (runEvents run count (initEnv count w) evs)).1.result p = true ∧
      ∃ added, (check run count (runEvents run count (initEnv count w) evs)).1.log
          = (runEvents run count (initEnv count w) evs).log ++ added ∧
        ∀ x ∈ added, x.1 ≠ p) ∧
    ∃ ok rest, (loadCallback run count p c u (runEvents run count (initEnv count w) evs)).1.log
      = (runEvents run count (initEnv count w) evs).log ++ (p, ok) :: rest := by
  have inv := traceInv_reached run count w evs hnodup
  have hp : p < count := by
    obtain ⟨sc, hsc, _⟩ := executedAt_eq_true.1 hex
    rw [← inv.length_eq]; exact slot_lt_length hsc
  refine ⟨?_, ?_⟩
  · obtain ⟨stop, sp⟩ := checkLoop_spec run count 0 (runEvents run count (initEnv count w) evs)
    obtain ⟨added, hlog, _, hadded⟩ := sp.log_out
    refine ⟨(sp.executedAt_out p).2 (Or.inr hex), added, hlog, ?_⟩
    intro x hx heq
    have := (hadded x hx).2.2.1
    rw [heq, hex] at this
    cases this
  · have hlt : p < (runEvents run count (initEnv count w) evs).result.length := by
      rw [inv.length_eq]; exact hp
    exact checkLoop_first run p { executed := false, content := c, url := u } rfl count 0 _
      (Nat.zero_le _) (by omega)
      (fun j _ hj => by
        simp only [executedAt, slot_set_of_ne _ (Nat.ne_of_lt hj)]
        exact inv.closed j p hj hex)
      (slot_set_self _ hlt)

/-- Slot 0 is executed; its load callback fires again and slot 0 is run again. -/
theorem repeated_load_runs_again_witness :
    ∃ ok rest, (loadCallback runOk 2 0 (utf16 "a") none
        (runEvents runOk 2 (initEnv 2 0) [Event.load 0 (utf16 "a") none])).1.log
      = (runEvents runOk 2 (initEnv 2 0) [Event.load 0 (utf16 "a") none]).log
          ++ (0, ok) :: rest :=
  (repeated_load_runs_again runOk 2 0 [Event.load 0 (utf16 "a") none] (by decide) 0
    (by decide) (utf16 "a") none).2

/-! ## The diagnostic formatter -/

theorem jsSliceFrom_of_nonneg (s : JSString) (k : Int) (hk : 0 ≤ k) :
    jsSliceFrom s k = s.drop k.toNat := by
  unfold jsSliceFrom jsSlice sliceBound
  have h1 : ¬ (k < 0) := by omega
  have h2 : ¬ ((s.length : Int) < 0) := by omega
  simp only [h1, h2, if_false, Int.toNat_ofNat, Nat.min_self]
  by_cases hle : k.toNat ≤ s.length
  · rw [Nat.min_eq_left hle, List.take_of_length_le (by simp)]
  · rw [Nat.min_eq_right (by omega), List.drop_of_length_le (le_refl _),
      List.drop_of_length_le (by omega)]
    simp

theorem jsSlice_zero_of_nonneg (s : JSString) (k : Int) (hk : 0 ≤ k) :
    jsSlice s 0 k = s.take k.toNat := by
  unfold jsSlice sliceBound
  have h1 : ¬ (k < 0) := by omega
  simp only [h1, if_false, lt_self_iff_false, Int.toNat_zero, Nat.zero_min, List.drop_zero,
    Nat.sub_zero]
  by_cases hle : k.toNat ≤ s.length
  · rw [Nat.min_eq_left hle]
  · rw [Nat.min_eq_right (by omega), List.take_of_length_le (le_refl _),
      List.take_of_length_le (by omega)]

theorem flatten_replicate_singleton (n : Nat) (a : CodeUnit) :
    (List.replicate n [a]).flatten = List.replicate n a := by
  induction n with
  | zero => rfl
  | succ n ih => simp [List.replicate_succ, ih]

theorem newArrayJoin_space (n : Int) (h0 : 0 ≤ n) (h1 : n ≤ 4294967295) :
    newArrayJoin n (utf16 " ") = Except.ok (List.replicate (n.toNat - 1) 0x20) := by
  unfold newArrayJoin
  have : ¬ (n < 0 ∨ 4294967295 < n) := by omega
  rw [if_neg this]
  have hsp : utf16 " " = [0x20] := by decide
  rw [hsp, flatten_replicate_singleton]

theorem newArrayJoin_neg (n : Int) (sep : JSString) (h : n < 0) :
    newArrayJoin n sep = Except.error JSException.rangeError := by
  unfold newArrayJoin
  rw [if_pos (Or.inl h)]

theorem specTruncate_column (s : JSString) (col : Int) :
    (specTruncate s col).2 = if col > 30 then 34 else col := by
  unfold specTruncate
  split <;> rfl

/-- What the formatter returns for a line that exists and a column past the
indentation of that line: the line truncated as the specification says, and
under it a caret preceded by two spaces less than the column of the caret. -/
theorem createSourceCodeErrorMessage_eq (code : JSString) (e : TransformError) (line : JSString)
    (hline : jsIndex (jsSplit 0x0A code) (e.lineNumber - 1) = some line)
    (hcol : ((line.takeWhile isWhiteSpace).length : Int) < e.column) :
    createSourceCodeErrorMessage code e = Except.ok
      (utf16 "\n\n"
        ++ (specTruncate (line.dropWhile isWhiteSpace)
            (e.column - (line.takeWhile isWhiteSpace).length)).1
        ++ utf16 "\n"
        ++ List.replicate ((specTruncate (line.dropWhile isWhiteSpace)
            (e.column - (line.takeWhile isWhiteSpace).length)).2 - 2).toNat 0x20
        ++ utf16 "^") := by
  unfold createSourceCodeErrorMessage
  simp only [hline]
  unfold specTruncate
  simp only [LIMIT]
  by_cases hbig : e.column - ((line.takeWhile isWhiteSpace).length : Int) > 30
  · simp only [hbig, if_true]
    rw [jsSliceFrom_of_nonneg _ _ (by omega), jsSlice_zero_of_nonneg _ _ (by omega),
      newArrayJoin_space _ (by omega) (by omega)]
    simp only [show ((4 : Int) + 30) = 34 from rfl]
    have : ((34 : Int) - 1).toNat - 1 = ((34 : Int) - 2).toNat := by decide
    rw [this]
  · simp only [hbig, if_false]
    rw [jsSlice_zero_of_nonneg _ _ (by omega), newArrayJoin_space _ (by omega) (by omega)]
    have : (e.column - ((line.takeWhile isWhiteSpace).length : Int) - 1).toNat - 1
        = (e.column - ((line.takeWhile isWhiteSpace).length : Int) - 2).toNat := by omega
    rw [this]

theorem createSourceCodeErrorMessage_raise (code : JSString) (e : TransformError)
    (line : JSString)
    (hline : jsIndex (jsSplit 0x0A code) (e.lineNumber - 1) = some line)
    (hcol : e.column ≤ ((line.takeWhile isWhiteSpace).length : Int)) :
    createSourceCodeErrorMessage code e = Except.error JSException.rangeError := by
  unfold createSourceCodeErrorMessage
  simp only [hline, LIMIT]
  have hbig : ¬ (e.column - ((line.takeWhile isWhiteSpace).length : Int) > 30) := by omega
  simp only [hbig, if_false]
  rw [newArrayJoin_neg _ _ (by omega)]

theorem jsIndex_of_valid {α : Type} (xs : List α) (k : Int) (h1 : 1 ≤ k)
    (h2 : k ≤ (xs.length : Int)) : ∃ x, jsIndex xs (k - 1) = some x := by
  unfold jsIndex
  have h3 : ¬ (k - 1 < 0) := by omega
  have h4 : (k - 1).toNat < xs.length := by omega
  rw [if_neg h3, List.getElem?_eq_getElem h4]
  exact ⟨_, rfl⟩

/-! ## The claims about `createSourceCodeErrorMessage` -/

/-- C8, as stated, fails: at the witness of the claim (the line of the truncation
example, column 45) the code returns a message whose last line is 32 spaces
followed by the caret, so the caret sits at column 33, and not 33 spaces
followed by the caret as the claim says. -/
theorem caret_one_column_left :
    createSourceCodeErrorMessage exampleLine (errorAt 1 45) = Except.ok
      (utf16 "\n\n...  'red', display:'block', overflow:'scroll'\x7d\x7d;\n"
        ++ List.replicate 32 0x20 ++ utf16 "^") ∧
    lastLine (utf16 "\n\n...  'red', display:'block', overflow:'scroll'\x7d\x7d;\n"
        ++ List.replicate 32 0x20 ++ utf16 "^") = List.replicate 32 0x20 ++ utf16 "^" ∧
    lastLine (utf16 "\n\n...  'red', display:'block', overflow:'scroll'\x7d\x7d;\n"
        ++ List.replicate 32 0x20 ++ utf16 "^") ≠ List.replicate (34 - 1) 0x20 ++ utf16 "^" := by
  refine ⟨by rfl, by decide, by decide⟩

/-- C9. Truncation policy with `LIMIT = 30`: for every source text and every
failure whose line exists and whose column lies past the leading white space
of that line (the cases in which a snippet is displayed), the message is two
newlines, the line truncated as the specification words it (`specTruncate`
applied to the stripped line and to the column minus the stripped width), a
newline, and the caret line. -/
theorem truncation_policy (code : JSString) (e : TransformError) (line : JSString)
    (hline : jsIndex (jsSplit 0x0A code) (e.lineNumber - 1) = some line)
    (hcol : ((line.takeWhile isWhiteSpace).length : Int) < e.column) :
    createSourceCodeErrorMessage code e = Except.ok
      (utf16 "\n\n"
        ++ (specTruncate (line.dropWhile isWhiteSpace)
            (e.column - (line.takeWhile isWhiteSpace).length)).1
        ++ utf16 "\n"
        ++ List.replicate ((specTruncate (line.dropWhile isWhiteSpace)
            (e.column - (line.takeWhile isWhiteSpace).length)).2 - 2).toNat 0x20
        ++ utf16 "^") :=
  createSourceCodeErrorMessage_eq code e line hline hcol

set_option maxRecDepth 100000 in
/-- A line of one hundred characters indented by two spaces, with column 52: the
snippet is cut on both sides. -/
theorem truncation_policy_witness :
    createSourceCodeErrorMessage (utf16 "x\n  " ++ longLine) (errorAt 2 52) = Except.ok
      (utf16 "\n\n... 012345678901234567890123456789012345678901234567890123456789 ...\n"
        ++ List.replicate 32 0x20 ++ utf16 "^") :=
  (truncation_policy (utf16 "x\n  " ++ longLine) (errorAt 2 52) (utf16 "  " ++ longLine)
    rfl (by decide)).trans rfl

/-- C10, as stated, fails: the text is one line indented by two spaces, the line
number 1 and the column 1 are valid, and the formatter raises a `RangeError`. -/
theorem formatter_raises_in_indentation :
    (1 ≤ (errorAt 1 1).lineNumber ∧
      (errorAt 1 1).lineNumber ≤ ((jsSplit 0x0A (utf16 "  x")).length : Int) ∧
      1 ≤ (errorAt 1 1).column) ∧
    createSourceCodeErrorMessage (utf16 "  x") (errorAt 1 1)
      = Except.error JSException.rangeError := by
  refine ⟨by decide, by rfl⟩

/-- C10, amended. Totality of the formatter on valid positions: for every source
text and every failure whose 1-based line is between 1 and the number of lines
of the text, the line exists, and if the column is greater than the number of
leading white-space characters of that line then the formatter returns a
message and does not raise; for any other column it raises a `RangeError`. -/
theorem formatter_total (code : JSString) (e : TransformError)
    (h1 : 1 ≤ e.lineNumber) (h2 : e.lineNumber ≤ ((jsSplit 0x0A code).length : Int)) :
    (∃ line, jsIndex (jsSplit 0x0A code) (e.lineNumber - 1) = some line) ∧
    ∀ line, jsIndex (jsSplit 0x0A code) (e.lineNumber - 1) = some line →
      (((line.takeWhile isWhiteSpace).length : Int) < e.column →
        ∃ msg, createSourceCodeErrorMessage code e = Except.ok msg) ∧
      (e.column ≤ ((line.takeWhile isWhiteSpace).length : Int) →
        createSourceCodeErrorMessage code e = Except.error JSException.rangeError) := by
  refine ⟨jsIndex_of_valid _ _ h1 h2, ?_⟩
  intro line hline
  refine ⟨?_, ?_⟩
  · intro hcol
    exact ⟨_, createSourceCodeErrorMessage_eq code e line hline hcol⟩
  · intro hcol
    exact createSourceCodeErrorMessage_raise code e line hline hcol

/-- The second line of a text, indented by two spaces, with column 3: a message
is returned. -/
theorem formatter_total_witness :
    ∃ msg, createSourceCodeErrorMessage (utf16 "a\n  xyz") (errorAt 2 3) = Except.ok msg :=
  ((formatter_total (utf16 "a\n  xyz") (errorAt 2 3) (by decide) (by decide)).2
    (utf16 "  xyz") rfl).1 (by decide)

/-! ## The drain leaves no loaded slot waiting -/

theorem completeInv_check {W E : Type} (run : W → JSString → Option JSString → W × Option E)
    {count : Nat} {env : Env W} (hlen : env.result.length = count) :
    CompleteInv count (check run count env).1 := by
  obtain ⟨stop, sp⟩ := checkLoop_spec run count 0 env
  unfold check
  constructor
  · rw [sp.length_eq]; exact hlen
  · intro k hlow hl
    rw [sp.loadedAt_out] at hl
    have hstopfree : executedAt (checkLoop run count 0 env).1.result stop = true → False := by
      intro hx
      rcases (sp.executedAt_out stop).1 hx with h | h
      · omega
      · cases herr : (checkLoop run count 0 env).2 with
        | none =>
          rcases sp.ended herr with h2 | h2
          · obtain ⟨sc, hsc, _⟩ := executedAt_eq_true.1 h
            have := slot_lt_length hsc
            omega
          · simp [executedAt, h2] at h
        | some err =>
          obtain ⟨_, sc, w, h2, h3, _⟩ := sp.raised err herr
          simp [executedAt, h2, h3] at h
    by_cases hk : k < stop
    · left
      exact (sp.executedAt_out k).2 (Or.inl ⟨Nat.zero_le _, hk⟩)
    · by_cases hks : k = stop
      · subst hks
        cases herr : (checkLoop run count 0 env).2 with
        | none =>
          rcases sp.ended herr with h2 | h2
          · obtain ⟨sc, hsc⟩ := Option.isSome_iff_exists.1 hl
            have := slot_lt_length hsc
            omega
          · simp [loadedAt, h2] at hl
        | some err =>
          right
          rw [sp.log_eq, herr]
          simp
      · exact absurd (hlow stop (by omega)) (fun h => hstopfree h)

theorem completeInv_step {W E : Type} (run : W → JSString → Option JSString → W × Option E)
    {count : Nat} {env : Env W} (hlen : env.result.length = count) (ev : Event) :
    CompleteInv count (step run count env ev).1 := by
  cases ev with
  | drain => exact completeInv_check run hlen
  | load i c u => exact completeInv_check run (by simpa using hlen)

theorem completeInv_runEvents {W E : Type} (run : W → JSString → Option JSString → W × Option E)
    {count : Nat} (evs : List Event) :
    ∀ {env : Env W}, CompleteInv count env → CompleteInv count (runEvents run count env evs) := by
  induction evs with
  | nil => intro env inv; exact inv
  | cons ev evs ih =>
    intro env inv
    exact ih (completeInv_step run inv.length_eq ev)

theorem completeInv_init {W : Type} (count : Nat) (w : W) :
    CompleteInv count (initEnv count w) where
  length_eq := by simp [initEnv]
  complete := by
    intro k _ hl
    simp [initEnv, loadedAt, slot_replicate_none] at hl

/-- C16. Drain completeness: in every state reached from the all-pending state
by load callbacks and drains, each position notified at most once, if no call
of `run` so far raised then the slot at position `i` is executed if and only
if every slot at a position up to `i` is loaded: the drain executes the whole
contiguous loaded run of slots from the start, not part of it. -/
theorem drain_complete {W E : Type}
    (run : W → JSString → Option JSString → W × Option E) (count : Nat) (w : W)
    (evs : List Event) (hnodup : (loadPositions evs).Nodup)
    (hok : ∀ x ∈ (runEvents run count (initEnv count w) evs).log, x.2 = true) (i : Nat) :
    executedAt (runEvents run count (initEnv count w) evs).result i = true ↔
      ∀ j, j ≤ i → loadedAt (runEvents run count (initEnv count w) evs).result j = true := by
  have inv := traceInv_reached run count w evs hnodup
  have cinv := completeInv_runEvents run evs (completeInv_init count w)
  constructor
  · intro hx j hj
    rcases Nat.lt_or_eq_of_le hj with h | h
    · exact executedAt_le_loadedAt (inv.closed j i h hx)
    · rw [h]; exact executedAt_le_loadedAt hx
  · intro hall
    have key : ∀ n, ∀ k, k < n → k ≤ i →
        executedAt (runEvents run count (initEnv count w) evs).result k = true := by
      intro n
      induction n with
      | zero => intro k hk; omega
      | succ n ih =>
        intro k hk hki
        rcases cinv.complete k (fun j hj => ih j (by omega) (by omega)) (hall k hki) with h | h
        · exact h
        · have := hok _ h
          cases this
    exact key (i + 1) i (by omega) (le_refl _)

/-- Contents arrive in the order 2, 0: slot 0 is executed; slot 2, above the
pending slot 1, is not. -/
theorem drain_complete_witness :
    executedAt (runEvents runOk 3 (initEnv 3 0)
      [Event.load 2 (utf16 "c") none, Event.load 0 (utf16 "a") none]).result 0 = true :=
  (drain_complete runOk 3 0 [Event.load 2 (utf16 "c") none, Event.load 0 (utf16 "a") none]
    (by decide) (by decide) 0).2 (by decide)

/-! ## The claim about `load` -/

/-- C15. Fatal status boundary of `load`: when the request for `url` completes
(`readyState` 4) with status 0 or 200, the callback is invoked exactly once,
with `responseText` and `url`, and what it does and raises is what the handler
does and raises; with any other status the callback is not invoked, nothing
changes and the error `"Could not load " + url` is raised; while `readyState`
is not 4 nothing happens. So, on completion, the callback is invoked if and
only if the status is 0 or 200. -/
theorem load_status_boundary {S E : Type} (callback : JSString → JSString → S → S × Option E)
    (url : JSString) (xhr : XHR) (f : Fetch S) :
    (xhr.readyState = 4 → (xhr.status = 0 ∨ xhr.status = 200) →
      (onreadystatechange callback url xhr f).1.calls = f.calls ++ [(xhr.responseText, url)] ∧
      (onreadystatechange callback url xhr f).1.state
        = (callback xhr.responseText url f.state).1 ∧
      (onreadystatechange callback url xhr f).2
        = ((callback xhr.responseText url f.state).2).map LoadFailure.fromCallback) ∧
    (xhr.readyState = 4 → ¬ (xhr.status = 0 ∨ xhr.status = 200) →
      (onreadystatechange callback url xhr f).1.calls = f.calls ∧
      (onreadystatechange callback url xhr f).1.state = f.state ∧
      (onreadystatechange callback url xhr f).2
        = some (LoadFailure.error (utf16 "Could not load " ++ url))) ∧
    (xhr.readyState ≠ 4 →
      (onreadystatechange callback url xhr f).1.calls = f.calls ∧
      (onreadystatechange callback url xhr f).1.state = f.state ∧
      (onreadystatechange callback url xhr f).2 = none) ∧
    (xhr.readyState = 4 →
      ((onreadystatechange callback url xhr f).1.calls ≠ f.calls ↔
        (xhr.status = 0 ∨ xhr.status = 200))) := by
  refine ⟨?_, ?_, ?_, ?_⟩
  · intro h4 hs
    unfold onreadystatechange
    rw [if_pos h4, if_pos hs]
    cases hc : callback xhr.responseText url f.state with
    | mk s oerr => cases oerr <;> simp
  · intro h4 hs
    unfold onreadystatechange
    rw [if_pos h4, if_neg hs]
    exact ⟨rfl, rfl, rfl⟩
  · intro h4
    unfold onreadystatechange
    rw [if_neg h4]
    exact ⟨rfl, rfl, rfl⟩
  · intro h4
    unfold onreadystatechange
    rw [if_pos h4]
    by_cases hs : xhr.status = 0 ∨ xhr.status = 200
    · rw [if_pos hs]
      cases hc : callback xhr.responseText url f.state with
      | mk s oerr => cases oerr <;> simp [hs]
    · rw [if_neg hs]
      simp [hs]

/-! ## The drain of the code and the drain of the specification -/

theorem getD_map_slotStateOf (r : List (Option Script)) (i : Nat) :
    (r.map slotStateOf).getD i SlotState.pending = slotStateOf (slot r i) := by
  simp only [slot, List.getD_eq_getElem?_getD, List.getElem?_map]
  cases r[i]? <;> rfl

theorem executedAt_cons_zero (a : Option Script) (t : List (Option Script)) :
    executedAt (a :: t) 0 = (match a with
      | some script => script.executed
      | none => false) := by
  simp [executedAt, slot]

theorem executedAt_cons_succ (a : Option Script) (t : List (Option Script)) (j : Nat) :
    executedAt (a :: t) (j + 1) = executedAt t j := by
  simp [executedAt, slot]

/-- When exactly the slots below `k` are executed, the number of executed slots
is `k`. -/
theorem executedCount_eq (r : List (Option Script)) :
    ∀ k, (∀ j, executedAt r j = true ↔ j < k) → executedCount r = k := by
  induction r with
  | nil =>
    intro k h
    cases k with
    | zero => rfl
    | succ k =>
      have := (h 0).2 (by omega)
      simp [executedAt, slot] at this
  | cons a t ih =>
    intro k h
    cases k with
    | zero =>
      have h0 : ¬ (executedAt (a :: t) 0 = true) := fun hx => by
        have := (h 0).1 hx
        omega
      rw [executedAt_cons_zero] at h0
      have ht : executedCount t = 0 := ih 0 (fun j => by
        have := h (j + 1)
        rw [executedAt_cons_succ] at this
        constructor
        · intro hx; have := this.1 hx; omega
        · intro hx; omega)
      unfold executedCount at ht ⊢
      rw [List.countP_cons, ht]
      simp only [Nat.zero_add]
      rw [if_neg h0]
    | succ k =>
      have h0 : executedAt (a :: t) 0 = true := (h 0).2 (by omega)
      rw [executedAt_cons_zero] at h0
      have ht : executedCount t = k := ih k (fun j => by
        have := h (j + 1)
        rw [executedAt_cons_succ] at this
        constructor
        · intro hx; have := this.1 hx; omega
        · intro hx; exact this.2 (by omega))
      unfold executedCount at ht ⊢
      rw [List.countP_cons, ht, if_pos h0]

/-- The loop of `check` passes over the executed slots at the start. -/
theorem checkLoop_skip {W E : Type} (run : W → JSString → Option JSString → W × Option E)
    (count : Nat) (env : Env W) :
    ∀ k, k ≤ count → (∀ j, j < k → executedAt env.result j = true) →
      checkLoop run count 0 env = checkLoop run (count - k) k env := by
  intro k
  induction k with
  | zero => intro _ _; rfl
  | succ k ih =>
    intro hk hlow
    rw [ih (by omega) (fun j hj => hlow j (by omega))]
    obtain ⟨sc, hs, hx⟩ := executedAt_eq_true.1 (hlow k (by omega))
    have : count - k = (count - (k + 1)) + 1 := by omega
    rw [this]
    simp [checkLoop, hs, hx]

/-- From a state in which exactly the slots below `k` are executed, the loop of
`check` from `k` and the drain of the specification with cursor `k` do the
same. -/
theorem specDrainLoop_eq {W E : Type} (run : W → JSString → Option JSString → W × Option E) :
    ∀ (m k : Nat) (env : Env W), (∀ j, executedAt env.result j = true ↔ j < k) →
      ∃ k2, specDrainLoop run m k (sequencerAt env k)
          = (sequencerAt (checkLoop run m k env).1 k2, (checkLoop run m k env).2) ∧
        ∀ j, executedAt (checkLoop run m k env).1.result j = true ↔ j < k2 := by
  intro m
  induction m with
  | zero =>
    intro k env h
    exact ⟨k, rfl, h⟩
  | succ m ih =>
    intro k env h
    have hget : (sequencerAt env k).slots.getD k SlotState.pending
        = slotStateOf (slot env.result k) := getD_map_slotStateOf env.result k
    cases hs : slot env.result k with
    | none =>
      refine ⟨k, ?_, ?_⟩
      · rw [hs] at hget
        simp only [specDrainLoop, hget, slotStateOf, checkLoop, hs]
      · simpa [checkLoop, hs] using h
    | some sc =>
      have hx : sc.executed = false := by
        cases hq : sc.executed with
        | false => rfl
        | true =>
          have := (h k).1 (executedAt_eq_true.2 ⟨sc, hs, hq⟩)
          omega
      have hlt : k < env.result.length := slot_lt_length hs
      rw [hs] at hget
      have hget2 : (sequencerAt env k).slots.getD k SlotState.pending
          = SlotState.loaded sc.content sc.url := by
        rw [hget]; simp [slotStateOf, hx]
      cases hr : run env.world sc.content sc.url with
      | mk w oerr =>
        cases oerr with
        | some err =>
          refine ⟨k, ?_, ?_⟩
          · have hw : (sequencerAt env k).world = env.world := rfl
            simp only [specDrainLoop, hget2, hw, hr, checkLoop, hs, hx]
            rfl
          · simpa [checkLoop, hs, hx, hr] using h
        | none =>
          have hexact : ∀ j, executedAt (env.result.set k (some (markExecuted sc))) j = true
              ↔ j < k + 1 := by
            intro j
            by_cases hjk : j = k
            · subst hjk
              simp [executedAt, slot_set_self _ hlt, markExecuted]
            · have := h j
              simp only [executedAt, slot_set_of_ne _ hjk] at this ⊢
              rw [this]
              omega
          obtain ⟨k2, h1, h2⟩ := ih (k + 1)
            { result := env.result.set k (some (markExecuted sc)),
              world := w, log := env.log ++ [(k, true)] } hexact
          have hout : checkLoop run (m + 1) k env = checkLoop run m (k + 1)
              { result := env.result.set k (some (markExecuted sc)),
                world := w, log := env.log ++ [(k, true)] } := by
            simp [checkLoop, hs, hx, hr]
          refine ⟨k2, ?_, ?_⟩
          · rw [hout, ← h1]
            have hw : (sequencerAt env k).world = env.world := rfl
            simp only [specDrainLoop, hget2, hw, hr]
            congr 1
            simp [sequencerAt, List.map_set, slotStateOf, markExecuted]
          · rw [hout]; exact h2

/-- In a state reached with each position notified at most once, exactly the
slots below some `k` are executed. -/
theorem exact_of_closed {r : List (Option Script)}
    (hclosed : ∀ i j, i < j → executedAt r j = true → executedAt r i = true) :
    ∃ k, k ≤ r.length ∧ ∀ j, executedAt r j = true ↔ j < k := by
  have hex : ∃ n, ¬ (executedAt r n = true) := by
    refine ⟨r.length, ?_⟩
    intro h
    obtain ⟨sc, hsc, _⟩ := executedAt_eq_true.1 h
    have := slot_lt_length hsc
    omega
  refine ⟨Nat.find hex, ?_, ?_⟩
  · by_contra hlt
    have h1 : r.length < Nat.find hex := by omega
    have h2 := Nat.find_min hex h1
    simp only [Decidable.not_not] at h2
    obtain ⟨sc, hsc, _⟩ := executedAt_eq_true.1 h2
    have := slot_lt_length hsc
    omega
  · intro j
    constructor
    · intro hj
      by_contra hge
      have hspec := Nat.find_spec hex
      rcases Nat.lt_or_eq_of_le (Nat.le_of_not_lt hge) with h | h
      · exact hspec (hclosed _ _ h hj)
      · rw [h] at hspec; exact hspec hj
    · intro hj
      have := Nat.find_min hex hj
      simpa using this

theorem specDrain_eq_check {W E : Type} (run : W → JSString → Option JSString → W × Option E)
    {count : Nat} {env : Env W} (hlen : env.result.length = count) {k : Nat}
    (hexact : ∀ j, executedAt env.result j = true ↔ j < k) :
    specDrain run (sequencerAt env k)
      = (sequencerOf (check run count env).1, (check run count env).2) := by
  have hk : k ≤ count := by
    by_contra hlt
    obtain ⟨sc, hsc, _⟩ := executedAt_eq_true.1 ((hexact count).2 (by omega))
    have := slot_lt_length hsc
    omega
  obtain ⟨k2, h1, h2⟩ := specDrainLoop_eq run (count - k) k env hexact
  have hskip := checkLoop_skip run count env k hk (fun j hj => (hexact j).2 hj)
  unfold specDrain check
  have hl : (sequencerAt env k).slots.length = count := by
    simp [sequencerAt, hlen]
  have hc : (sequencerAt env k).cursor = k := rfl
  rw [hl, hc, h1, hskip]
  unfold sequencerOf
  rw [executedCount_eq _ k2 h2]

/-- One event does the same on the code and on the specification. -/
theorem specStep_eq_step {W E : Type} (run : W → JSString → Option JSString → W × Option E)
    {count : Nat} {env : Env W} {ps : List Nat} (inv : TraceInv count env ps) (ev : Event)
    (hev : ∀ i ∈ loadPositions [ev], i ∉ ps) :
    specStep run (sequencerOf env) ev
      = (sequencerOf (step run count env ev).1, (step run count env ev).2) := by
  obtain ⟨k, _, hexact⟩ := exact_of_closed inv.closed
  have hcount : executedCount env.result = k := executedCount_eq _ k hexact
  cases ev with
  | drain =>
    show specDrain run (sequencerOf env) = _
    unfold sequencerOf
    rw [hcount]
    exact specDrain_eq_check run inv.length_eq hexact
  | load i c u =>
    have hi : i ∉ ps := hev i (by simp [loadPositions])
    have hnl : loadedAt env.result i = false := by
      cases hq : loadedAt env.result i with
      | false => rfl
      | true => exact absurd (inv.loaded_mem i hq) hi
    have hexact2 : ∀ j, executedAt
        (env.result.set i (some { executed := false, content := c, url := u })) j = true
          ↔ j < k := by
      intro j
      rw [executedAt_set_fresh c u hnl]
      exact hexact j
    have hseq : ({ slots := (sequencerOf env).slots.set i (SlotState.loaded c u),
                   cursor := (sequencerOf env).cursor,
                   world := (sequencerOf env).world,
                   log := (sequencerOf env).log } : Sequencer W)
        = sequencerAt
            ({ result := env.result.set i (some { executed := false, content := c, url := u }),
               world := env.world, log := env.log } : Env W) k := by
      simp [sequencerOf, sequencerAt, hcount, List.map_set, slotStateOf]
    exact (congrArg (specDrain run) hseq).trans
      (specDrain_eq_check run (by simpa using inv.length_eq) hexact2)

theorem specRunEvents_eq {W E : Type} (run : W → JSString → Option JSString → W × Option E)
    {count : Nat} (evs : List Event) :
    ∀ {env : Env W} {ps : List Nat}, TraceInv count env ps →
      (loadPositions evs).Nodup → (∀ i ∈ loadPositions evs, i ∉ ps) →
      specRunEvents run (sequencerOf env) evs = sequencerOf (runEvents run count env evs) := by
  induction evs with
  | nil => intro env ps _ _ _; rfl
  | cons ev evs ih =>
    intro env ps inv hnd hps
    rw [loadPositions_cons] at hnd hps
    rw [List.nodup_append] at hnd
    obtain ⟨_, hnd2, hdisj⟩ := hnd
    have hfresh : ∀ i ∈ loadPositions [ev], i ∉ ps :=
      fun i hi => hps i (List.mem_append_left _ hi)
    have h1 := traceInv_step run inv ev hfresh
    have h2 := ih h1 hnd2 (by
      intro i hi hmem
      rw [List.mem_append] at hmem
      rcases hmem with hmem | hmem
      · exact hdisj hmem hi
      · exact hps i (List.mem_append_right _ hi) hmem)
    simp only [specRunEvents, runEvents]
    rw [specStep_eq_step run inv ev hfresh]
    exact h2

theorem sequencerOf_initEnv {W : Type} (count : Nat) (w : W) :
    sequencerOf (initEnv count w) = specInit count w := by
  have hc : executedCount (List.replicate count (none : Option Script)) = 0 :=
    executedCount_eq _ 0 (fun j => by simp [executedAt, slot_replicate_none])
  simp [sequencerOf, sequencerAt, initEnv, specInit, hc, slotStateOf]

/-- C17. Cursor refinement: for every sequence of load callbacks and drains with
each position notified at most once, `run` free to raise, the drain of the
code (rescan from position 0, skipping executed slots) and the cursor-based
drain of the specification reach corresponding states, the cursor being the
number of executed slots, with the same world and the same log of calls of
`run`; and the next invocation, a drain or the load callback of a position not
yet notified, raises the same error or none in both, runs the same positions
in the same order, and again reaches corresponding states. -/
theorem cursor_refinement {W E : Type}
    (run : W → JSString → Option JSString → W × Option E) (count : Nat) (w : W)
    (evs : List Event) (hnodup : (loadPositions evs).Nodup) :
    specRunEvents run (specInit count w) evs
        = sequencerOf (runEvents run count (initEnv count w) evs) ∧
    (specRunEvents run (specInit count w) evs).cursor
        = executedCount (runEvents run count (initEnv count w) evs).result ∧
    (specRunEvents run (specInit count w) evs).log
        = (runEvents run count (initEnv count w) evs).log ∧
    ∀ ev, (∀ i ∈ loadPositions [ev], i ∉ loadPositions evs) →
      specStep run (specRunEvents run (specInit count w) evs) ev
        = (sequencerOf (step run count (runEvents run count (initEnv count w) evs) ev).1,
            (step run count (runEvents run count (initEnv count w) evs) ev).2) := by
  have hmain : specRunEvents run (specInit count w) evs
      = sequencerOf (runEvents run count (initEnv count w) evs) := by
    rw [← sequencerOf_initEnv]
    exact specRunEvents_eq run evs (traceInv_init count w) hnodup (by simp)
  refine ⟨hmain, by rw [hmain]; rfl, by rw [hmain]; rfl, ?_⟩
  intro ev hev
  rw [hmain]
  exact specStep_eq_step run (traceInv_reached run count w evs hnodup) ev
    (fun i hi => by rw [List.mem_reverse]; exact hev i hi)

/-- Contents arrive in the order 2, 0, 1, the content of slot 1 being one that
`run` raises for: the specification's sequencer ends with cursor 1, slot 0
executed, and the log of the code. -/
theorem cursor_refinement_witness :
    (specRunEvents (runUnless (utf16 "bad")) (specInit 3 0)
      [Event.load 2 (utf16 "c") none, Event.load 0 (utf16 "a") none,
        Event.load 1 (utf16 "bad") none]).cursor = 1 ∧
    (specRunEvents (runUnless (utf16 "bad")) (specInit 3 0)
      [Event.load 2 (utf16 "c") none, Event.load 0 (utf16 "a") none,
        Event.load 1 (utf16 "bad") none]).log
      = (runEvents (runUnless (utf16 "bad")) 3 (initEnv 3 0)
      [Event.load 2 (utf16 "c") none, Event.load 0 (utf16 "a") none,
        Event.load 1 (utf16 "bad") none]).log :=
  ⟨((cursor_refinement (runUnless (utf16 "bad")) 3 0
      [Event.load 2 (utf16 "c") none, Event.load 0 (utf16 "a") none,
        Event.load 1 (utf16 "bad") none] (by decide)).2.1).trans (by decide),
   (cursor_refinement (runUnless (utf16 "bad")) 3 0
      [Event.load 2 (utf16 "c") none, Event.load 0 (utf16 "a") none,
        Event.load 1 (utf16 "bad") none] (by decide)).2.2.1⟩

/-- A request completing with status 200 invokes the callback once. -/
theorem load_status_boundary_witness :
    (onreadystatechange storeText (utf16 "a.js")
      { readyState := 4, status := 200, responseText := utf16 "var a;" }
      { state := [], calls := [] }).1.calls = [(utf16 "var a;", utf16 "a.js")] :=
  ((load_status_boundary storeText (utf16 "a.js")
    { readyState := 4, status := 200, responseText := utf16 "var a;" }
    { state := [], calls := [] }).1 (by decide) (by decide)).1

/-! ## The lines of a message -/

theorem jsSplit_ne_nil (sep : CodeUnit) (s : JSString) : jsSplit sep s ≠ [] := by
  induction s with
  | nil => simp [jsSplit]
  | cons c cs ih =>
    unfold jsSplit
    split
    · simp
    · split <;> simp

theorem jsSplit_of_not_mem (sep : CodeUnit) (a : JSString) (h : sep ∉ a) :
    jsSplit sep a = [a] := by
  induction a with
  | nil => rfl
  | cons c cs ih =>
    have hc : c ≠ sep := fun hc => h (by simp [hc])
    have hcs : sep ∉ cs := fun hm => h (List.mem_cons_of_mem _ hm)
    simp [jsSplit, hc, ih hcs]

theorem jsSplit_append_sep (sep : CodeUnit) (a b : JSString) (h : sep ∉ a) :
    jsSplit sep (a ++ sep :: b) = a :: jsSplit sep b := by
  induction a with
  | nil => simp [jsSplit]
  | cons c cs ih =>
    have hc : c ≠ sep := fun hc => h (by simp [hc])
    have hcs : sep ∉ cs := fun hm => h (List.mem_cons_of_mem _ hm)
    simp [jsSplit, hc, ih hcs]

theorem not_mem_of_mem_jsSplit (sep : CodeUnit) (s : JSString) :
    ∀ l ∈ jsSplit sep s, sep ∉ l := by
  induction s with
  | nil =>
    intro l hl
    simp [jsSplit] at hl
    subst hl
    simp
  | cons c cs ih =>
    intro l hl
    unfold jsSplit at hl
    split at hl
    · rw [List.mem_cons] at hl
      rcases hl with hl | hl
      · subst hl; simp
      · exact ih l hl
    · rename_i hc
      split at hl
      · rename_i heq
        exact absurd heq (jsSplit_ne_nil sep cs)
      · rename_i l0 ls heq
        rw [List.mem_cons] at hl
        rcases hl with hl | hl
        · subst hl
          have h0 := ih l0 (by rw [heq]; exact List.mem_cons_self _ _)
          intro hm
          rw [List.mem_cons] at hm
          rcases hm with hm | hm
          · exact hc hm.symm
          · exact h0 hm
        · exact ih l (by rw [heq]; exact List.mem_cons_of_mem _ hl)

theorem mem_of_jsIndex {α : Type} {xs : List α} {k : Int} {x : α}
    (h : jsIndex xs k = some x) : x ∈ xs := by
  unfold jsIndex at h
  split at h
  · cases h
  · exact List.getElem?_mem h

/-- The four lines of a message built from a source line and a caret line that
contain no newline. -/
theorem jsSplit_message (shown pad : JSString) (h1 : 0x0A ∉ shown) (h2 : 0x0A ∉ pad) :
    jsSplit 0x0A (utf16 "\n\n" ++ shown ++ utf16 "\n" ++ pad ++ utf16 "^")
      = [[], [], shown, pad ++ utf16 "^"] := by
  have hnl2 : utf16 "\n\n" = [0x0A, 0x0A] := by decide
  have hnl : utf16 "\n" = [0x0A] := by decide
  have hc : utf16 "^" = [0x5E] := by decide
  rw [hnl2, hnl, hc]
  have e1 : [0x0A, 0x0A] ++ shown ++ [0x0A] ++ pad ++ [0x5E]
      = [] ++ 0x0A :: ([] ++ 0x0A :: (shown ++ 0x0A :: (pad ++ [0x5E]))) := by simp
  rw [e1, jsSplit_append_sep _ _ _ (by simp), jsSplit_append_sep _ _ _ (by simp),
    jsSplit_append_sep _ _ _ h1, jsSplit_of_not_mem]
  intro hm
  rw [List.mem_append] at hm
  rcases hm with hm | hm
  · exact h2 hm
  · simp at hm

theorem not_mem_cut (first : JSString × Int) (h : 0x0A ∉ first.1) :
    0x0A ∉ (if (first.1.length : Int) - first.2 > 30 then
      first.1.take (first.2 + 30).toNat ++ utf16 " ..." else first.1) := by
  have ht : utf16 " ..." = [0x20, 0x2E, 0x2E, 0x2E] := by decide
  split
  · intro hm
    rw [List.mem_append] at hm
    rcases hm with hm | hm
    · exact h (List.mem_of_mem_take hm)
    · simp [ht] at hm
  · exact h

theorem not_mem_specTruncate (s : JSString) (col : Int) (h : 0x0A ∉ s) :
    0x0A ∉ (specTruncate s col).1 := by
  have hd : utf16 "... " = [0x2E, 0x2E, 0x2E, 0x20] := by decide
  have hfirst : 0x0A ∉ (if col > 30 then (utf16 "... " ++ s.drop (col - 30).toNat, (34 : Int))
      else (s, col)).1 := by
    split
    · intro hm
      simp only [hd, List.mem_append] at hm
      rcases hm with hm | hm
      · simp at hm
      · exact h (List.mem_of_mem_drop hm)
    · exact h
  exact not_mem_cut _ hfirst

theorem length_specTruncate_le (s : JSString) (col : Int) (hcol : 1 ≤ col) :
    (specTruncate s col).1.length ≤ 68 := by
  have hd : (utf16 "... ").length = 4 := by decide
  have ht : (utf16 " ...").length = 4 := by decide
  unfold specTruncate
  by_cases hbig : col > 30
  · simp only [hbig, if_true]
    split
    · simp only [List.length_append, List.length_take, ht]
      have : (34 + 30 : Int).toNat = 64 := by decide
      rw [this]
      omega
    · rename_i hle
      simp only [List.length_append, hd] at hle ⊢
      omega
  · simp only [hbig, if_false]
    split
    · simp only [List.length_append, List.length_take, ht]
      omega
    · rename_i hle
      omega

theorem not_mem_stripped (line : JSString) (h : 0x0A ∉ line) :
    0x0A ∉ line.dropWhile isWhiteSpace :=
  fun hm => h ((List.dropWhile_sublist isWhiteSpace).subset hm)

theorem not_mem_spaces (n : Nat) : 0x0A ∉ List.replicate n 0x20 := by
  intro hm
  have := List.eq_of_mem_replicate hm
  omega

theorem charAboveCaret_message (shown pad : JSString) (h1 : 0x0A ∉ shown) (h2 : 0x0A ∉ pad) :
    charAboveCaret (utf16 "\n\n" ++ shown ++ utf16 "\n" ++ pad ++ utf16 "^")
      = shown[pad.length]? := by
  unfold charAboveCaret
  rw [jsSplit_message shown pad h1 h2]
  have hc : (utf16 "^").length = 1 := by decide
  simp [hc]

theorem messageWithoutTruncation_eq (code : JSString) (e : TransformError) (line : JSString)
    (hline : jsIndex (jsSplit 0x0A code) (e.lineNumber - 1) = some line)
    (hcol : ((line.takeWhile isWhiteSpace).length : Int) < e.column)
    (hmax : e.column - ((line.takeWhile isWhiteSpace).length : Int) ≤ 4294967296) :
    messageWithoutTruncation code e = Except.ok
      (utf16 "\n\n" ++ line.dropWhile isWhiteSpace ++ utf16 "\n"
        ++ List.replicate (e.column - (line.takeWhile isWhiteSpace).length - 2).toNat 0x20
        ++ utf16 "^") := by
  unfold messageWithoutTruncation
  simp only [hline]
  rw [newArrayJoin_space _ (by omega) (by omega)]
  have : (e.column - ((line.takeWhile isWhiteSpace).length : Int) - 1).toNat - 1
      = (e.column - ((line.takeWhile isWhiteSpace).length : Int) - 2).toNat := by omega
  rw [this]

/-- The character above the caret is the same before and after truncation. -/
theorem specTruncate_getElem? (s : JSString) (col : Int) (hcol : 1 ≤ col) :
    (specTruncate s col).1[((specTruncate s col).2 - 2).toNat]? = s[(col - 2).toNat]? := by
  have hd : (utf16 "... ").length = 4 := by decide
  unfold specTruncate
  by_cases hbig : col > 30
  · simp only [hbig, if_true]
    have h34 : ((34 : Int) - 2).toNat = 32 := by decide
    have h64 : ((34 : Int) + 30).toNat = 64 := by decide
    rw [h34, h64]
    have hfirst : (utf16 "... " ++ List.drop (col - 30).toNat s)[32]? = s[(col - 2).toNat]? := by
      rw [List.getElem?_append_right (by rw [hd]; omega), hd, List.getElem?_drop]
      congr 1
      omega
    split
    · rename_i hcut
      simp only [List.length_append, hd] at hcut
      rw [List.getElem?_append_left (by
        simp only [List.length_take, List.length_append, hd]; omega),
        List.getElem?_take_of_lt (by omega)]
      exact hfirst
    · exact hfirst
  · simp only [hbig, if_false]
    split
    · rename_i hcut
      rw [List.getElem?_append_left (by simp only [List.length_take]; omega),
        List.getElem?_take_of_lt (by omega)]
    · rfl

/-! ## Further claims about `createSourceCodeErrorMessage` -/

/-- C18. Bounded snippet: for every source text and every failure whose line
exists and whose column is greater than the indentation of that line, the
message returned has four lines, two empty ones, the source line and the caret
line, and the source line has at most 68 characters (`2 * LIMIT + 8`), however
long the original line is. -/
theorem snippet_bounded (code : JSString) (e : TransformError) (line : JSString)
    (hline : jsIndex (jsSplit 0x0A code) (e.lineNumber - 1) = some line)
    (hcol : ((line.takeWhile isWhiteSpace).length : Int) < e.column) :
    ∃ msg snippet caretLine, createSourceCodeErrorMessage code e = Except.ok msg ∧
      jsSplit 0x0A msg = [[], [], snippet, caretLine] ∧ snippet.length ≤ 68 := by
  have hnl : 0x0A ∉ line := not_mem_of_mem_jsSplit _ _ line (mem_of_jsIndex hline)
  refine ⟨_, (specTruncate (line.dropWhile isWhiteSpace)
      (e.column - (line.takeWhile isWhiteSpace).length)).1,
    List.replicate ((specTruncate (line.dropWhile isWhiteSpace)
      (e.column - (line.takeWhile isWhiteSpace).length)).2 - 2).toNat 0x20 ++ utf16 "^",
    createSourceCodeErrorMessage_eq code e line hline hcol, ?_, ?_⟩
  · have := jsSplit_message (specTruncate (line.dropWhile isWhiteSpace)
        (e.column - (line.takeWhile isWhiteSpace).length)).1
      (List.replicate ((specTruncate (line.dropWhile isWhiteSpace)
        (e.column - (line.takeWhile isWhiteSpace).length)).2 - 2).toNat 0x20)
      (not_mem_specTruncate _ _ (not_mem_stripped line hnl)) (not_mem_spaces _)
    exact this
  · exact length_specTruncate_le _ _ (by omega)

set_option maxRecDepth 100000 in
/-- A line of one hundred characters, indented by two spaces, with column 52:
the source line shown has exactly 68 characters. -/
theorem snippet_bounded_witness :
    ∃ msg snippet caretLine,
      createSourceCodeErrorMessage (utf16 "x\n  " ++ longLine) (errorAt 2 52) = Except.ok msg ∧
      jsSplit 0x0A msg = [[], [], snippet, caretLine] ∧ snippet.length ≤ 68 :=
  snippet_bounded (utf16 "x\n  " ++ longLine) (errorAt 2 52) (utf16 "  " ++ longLine)
    rfl (by decide)

/-- C20. Truncation preserves the target of the caret: for every failing line
that exists and every column whose effective column (column minus indentation)
lies within the stripped line, the character of the displayed source line
directly above the caret is the character that stands above the caret when
the same line and column are formatted without the two truncation steps, and
it is the character of the stripped line at index effective column minus 2
(at index 0 for the effective column 1). The line is taken shorter than `2^32`
code units, as every string that an engine holds is. -/
theorem caret_target_preserved (code : JSString) (e : TransformError) (line : JSString)
    (hline : jsIndex (jsSplit 0x0A code) (e.lineNumber - 1) = some line)
    (hcol : ((line.takeWhile isWhiteSpace).length : Int) < e.column)
    (hwithin : e.column - ((line.takeWhile isWhiteSpace).length : Int)
      ≤ ((line.dropWhile isWhiteSpace).length : Int))
    (hlength : line.length < 4294967296) :
    ∃ msg plain c, createSourceCodeErrorMessage code e = Except.ok msg ∧
      messageWithoutTruncation code e = Except.ok plain ∧
      charAboveCaret msg = some c ∧ charAboveCaret plain = some c ∧
      (line.dropWhile isWhiteSpace)[(e.column - (line.takeWhile isWhiteSpace).length - 2).toNat]?
        = some c := by
  have hnl : 0x0A ∉ line := not_mem_of_mem_jsSplit _ _ line (mem_of_jsIndex hline)
  have hs := not_mem_stripped line hnl
  have hidx : (e.column - ((line.takeWhile isWhiteSpace).length : Int) - 2).toNat
      < (line.dropWhile isWhiteSpace).length := by
    have hpos : 0 < (line.dropWhile isWhiteSpace).length := by omega
    omega
  have hlen : (line.dropWhile isWhiteSpace).length ≤ line.length :=
    (List.dropWhile_sublist isWhiteSpace).length_le
  refine ⟨_, _, (line.dropWhile isWhiteSpace)[(e.column
      - ((line.takeWhile isWhiteSpace).length : Int) - 2).toNat],
    createSourceCodeErrorMessage_eq code e line hline hcol,
    messageWithoutTruncation_eq code e line hline hcol ?_, ?_, ?_, ?_⟩
  · omega
  · rw [charAboveCaret_message _ _ (not_mem_specTruncate _ _ hs) (not_mem_spaces _),
      List.length_replicate, specTruncate_getElem? _ _ (by omega),
      List.getElem?_eq_getElem hidx]
  · rw [charAboveCaret_message _ _ hs (not_mem_spaces _), List.length_replicate,
      List.getElem?_eq_getElem hidx]
  · exact List.getElem?_eq_getElem hidx

set_option maxRecDepth 100000 in
/-- The line of the truncation example with column 45: the character above the
caret, in the truncated message and in the untruncated one, is the character
at index 43 of the line. -/
theorem caret_target_preserved_witness :
    ∃ msg plain c, createSourceCodeErrorMessage exampleLine (errorAt 1 45) = Except.ok msg ∧
      messageWithoutTruncation exampleLine (errorAt 1 45) = Except.ok plain ∧
      charAboveCaret msg = some c ∧ charAboveCaret plain = some c ∧
      (exampleLine.dropWhile isWhiteSpace)[((errorAt 1 45).column
        - (exampleLine.takeWhile isWhiteSpace).length - 2).toNat]? = some c :=
  caret_target_preserved exampleLine (errorAt 1 45) exampleLine rfl (by decide) (by decide)
    (by decide)

/-! ## The transformer adapter -/

theorem locateError_lineNumber (host : Host) (e : TransformError) (source : Option JSString) :
    (locateError host e source).lineNumber = e.lineNumber := by
  unfold locateError
  cases source with
  | none => rfl
  | some s =>
    simp only
    split
    · split <;> rfl
    · rfl

theorem locateError_column (host : Host) (e : TransformError) (source : Option JSString) :
    (locateError host e source).column = e.column := by
  unfold locateError
  cases source with
  | none => rfl
  | some s =>
    simp only
    split
    · split <;> rfl
    · rfl

theorem locateError_message (host : Host) (e : TransformError) (source : Option JSString) :
    (locateError host e source).message
      = e.message ++ utf16 "\n    at " ++ locationText host e source := by
  unfold locateError locationText
  cases source with
  | none => rfl
  | some s =>
    simp only
    split
    · split <;> rfl
    · rfl

/-! ## The claims about `transformCode` -/

/-- C12. Pass-through: for every fragment whose docblock has no truthy `jsx`
entry and every source label, `transformCode` returns the text it was given,
with no source-map comment appended, does not call the transform, and leaves
the inline script counter unchanged; its result does not depend on the
transform at all. -/
theorem pass_through (host : Host) (code : JSString) (source : Option JSString)
    (st : TransformState) (hjsx : host.jsx code = false) :
    transformCode host code source st = (Except.ok code, st) ∧
    (transformCode host code source st).2.transformCalls = st.transformCalls ∧
    (transformCode host code source st).2.inlineScriptCount = st.inlineScriptCount ∧
    ∀ transform,
      transformCode { host with transformReact := transform } code source st
        = (Except.ok code, st) := by
  have h : transformCode host code source st = (Except.ok code, st) := by
    simp [transformCode, hjsx]
  refine ⟨h, by rw [h], by rw [h], ?_⟩
  intro transform
  simp [transformCode, hjsx]

/-- A script without the pragma is returned as it is, whatever the transform
would do with it. -/
theorem pass_through_witness :
    transformCode (hostWith (Except.error brokenError)) (utf16 "var x = ;")
        (some (utf16 "a.js")) initTransformState
      = (Except.ok (utf16 "var x = ;"), initTransformState) :=
  (pass_through (hostWith (Except.error brokenError)) (utf16 "var x = ;")
    (some (utf16 "a.js")) initTransformState (by decide)).1

set_option maxRecDepth 100000 in
/-- C11, as stated, fails: for `brokenScript` with the source `a.js`, the message
of the error thrown again has, between the original text and the source line,
the line `    at a.js:2:9` and an empty line. -/
theorem message_has_location :
    (transformCode (hostWith (Except.error brokenError)) brokenScript (some (utf16 "a.js"))
        initTransformState).1
      = Except.error (Thrown.transformError
          { message :=
              utf16 "Parse Error: Line 2: Unexpected token ;\n    at a.js:2:9\n\nvar x = ;\n       ^",
            lineNumber := 2, column := 9, fileName := none }) ∧
    utf16 "Parse Error: Line 2: Unexpected token ;\n    at a.js:2:9\n\nvar x = ;\n       ^"
      ≠ brokenError.message ++ utf16 "\n" ++ utf16 "var x = ;" ++ utf16 "\n" ++ utf16 "       ^" := by
  refine ⟨by rfl, by decide⟩

/-- C11, amended. Message composition on transform failure: for every fragment
with the `jsx` pragma whose transform fails with an error whose line exists in
the code and whose column is past the indentation of that line, the message of
the error thrown again is the original error text, then a newline and
`    at ` followed by the location (the source, `:`, the line number, `:`,
the column when a source is given, the address of the page otherwise), then
two newlines, the possibly truncated source line, a newline, and the caret
line; line and column of the error are unchanged. -/
theorem message_composition (host : Host) (code : JSString) (source : Option JSString)
    (st : TransformState) (e : TransformError) (line : JSString)
    (hjsx : host.jsx code = true) (herr : host.transformReact code = Except.error e)
    (hline : jsIndex (jsSplit 0x0A code) (e.lineNumber - 1) = some line)
    (hcol : ((line.takeWhile isWhiteSpace).length : Int) < e.column) :
    ∃ thrown, (transformCode host code source st).1
        = Except.error (Thrown.transformError thrown) ∧
      thrown.message = e.message ++ utf16 "\n    at " ++ locationText host e source
        ++ (utf16 "\n\n"
          ++ (specTruncate (line.dropWhile isWhiteSpace)
              (e.column - (line.takeWhile isWhiteSpace).length)).1
          ++ utf16 "\n"
          ++ List.replicate ((specTruncate (line.dropWhile isWhiteSpace)
              (e.column - (line.takeWhile isWhiteSpace).length)).2 - 2).toNat 0x20
          ++ utf16 "^") ∧
      thrown.lineNumber = e.lineNumber ∧ thrown.column = e.column := by
  have hl := locateError_lineNumber host e source
  have hc := locateError_column host e source
  have hfmt := createSourceCodeErrorMessage_eq code (locateError host e source) line
    (by rw [hl]; exact hline) (by rw [hc]; exact hcol)
  rw [hc] at hfmt
  generalize utf16 "\n\n"
      ++ (specTruncate (line.dropWhile isWhiteSpace)
          (e.column - (line.takeWhile isWhiteSpace).length)).1
      ++ utf16 "\n"
      ++ List.replicate ((specTruncate (line.dropWhile isWhiteSpace)
          (e.column - (line.takeWhile isWhiteSpace).length)).2 - 2).toNat 0x20
      ++ utf16 "^" = text at hfmt ⊢
  refine ⟨{ message := (locateError host e source).message ++ text,
            lineNumber := (locateError host e source).lineNumber,
            column := (locateError host e source).column,
            fileName := (locateError host e source).fileName }, ?_, ?_, hl, hc⟩
  · simp only [transformCode, hjsx, if_true, herr, hfmt]
  · simp only [locateError_message]

/-- The error of `brokenScript`, with no source given: the location is the
address of the page. -/
theorem message_composition_witness :
    ∃ thrown, (transformCode (hostWith (Except.error brokenError)) brokenScript none
        initTransformState).1 = Except.error (Thrown.transformError thrown) ∧
      thrown.message = brokenError.message ++ utf16 "\n    at "
        ++ locationText (hostWith (Except.error brokenError)) brokenError none
        ++ (utf16 "\n\n"
          ++ (specTruncate ((utf16 "var x = ;").dropWhile isWhiteSpace)
              (brokenError.column - ((utf16 "var x = ;").takeWhile isWhiteSpace).length)).1
          ++ utf16 "\n"
          ++ List.replicate ((specTruncate ((utf16 "var x = ;").dropWhile isWhiteSpace)
              (brokenError.column
                - ((utf16 "var x = ;").takeWhile isWhiteSpace).length)).2 - 2).toNat 0x20
          ++ utf16 "^") ∧
      thrown.lineNumber = brokenError.lineNumber ∧ thrown.column = brokenError.column :=
  message_composition (hostWith (Except.error brokenError)) brokenScript none
    initTransformState brokenError (utf16 "var x = ;") (by decide) rfl rfl (by decide)

/-! ## The last line of a text -/

theorem jsSplit_cons_ne (sep c : CodeUnit) (x : JSString) (hc : c ≠ sep) :
    jsSplit sep (c :: x) = (match jsSplit sep x with
      | [] => [[c]]
      | l :: ls => (c :: l) :: ls) := by
  simp [jsSplit, hc]

theorem jsSplit_append_of_not_mem (sep : CodeUnit) (b : JSString) (hb : sep ∉ b) :
    ∀ a, ∃ init last, jsSplit sep a = init ++ [last] ∧
      jsSplit sep (a ++ b) = init ++ [last ++ b] := by
  intro a
  induction a with
  | nil => exact ⟨[], [], rfl, by simpa using jsSplit_of_not_mem sep b hb⟩
  | cons c cs ih =>
    obtain ⟨init, last, h1, h2⟩ := ih
    by_cases hc : c = sep
    · refine ⟨[] :: init, last, ?_, ?_⟩
      · simp [jsSplit, hc, h1]
      · simp [jsSplit, hc, h2]
    · cases init with
      | nil =>
        refine ⟨[], c :: last, ?_, ?_⟩
        · rw [jsSplit_cons_ne sep c cs hc, h1]; rfl
        · rw [List.cons_append, jsSplit_cons_ne sep c _ hc, h2]; rfl
      | cons i0 rest =>
        refine ⟨(c :: i0) :: rest, last, ?_, ?_⟩
        · rw [jsSplit_cons_ne sep c cs hc, h1]; rfl
        · rw [List.cons_append, jsSplit_cons_ne sep c _ hc, h2]; rfl

theorem lastLine_append (a b : JSString) (hb : 0x0A ∉ b) :
    lastLine (a ++ b) = lastLine a ++ b := by
  obtain ⟨init, last, h1, h2⟩ := jsSplit_append_of_not_mem 0x0A b hb a
  unfold lastLine
  rw [h1, h2]
  simp [List.getLastD_eq_getLast?]

theorem jsSplit_append_singleton_sep (sep : CodeUnit) (a : JSString) :
    jsSplit sep (a ++ [sep]) = jsSplit sep a ++ [[]] := by
  induction a with
  | nil => simp [jsSplit]
  | cons c cs ih =>
    by_cases hc : c = sep
    · simp [jsSplit, hc, ih]
    · cases hs : jsSplit sep cs with
      | nil => exact absurd hs (jsSplit_ne_nil sep cs)
      | cons l ls =>
        rw [List.cons_append, jsSplit_cons_ne sep c _ hc, ih, jsSplit_cons_ne sep c cs hc, hs]
        rfl

/-- The last line of a text is empty exactly when the text is empty or ends with
a newline. -/
theorem lastLine_eq_nil_iff (s : JSString) :
    lastLine s = [] ↔ s = [] ∨ s.getLast? = some 0x0A := by
  rcases List.eq_nil_or_concat s with h | ⟨t, c, h⟩
  · subst h
    simp [lastLine, jsSplit]
  · rw [List.concat_eq_append] at h
    subst h
    by_cases hc : c = 0x0A
    · subst hc
      have : lastLine (t ++ [0x0A]) = [] := by
        unfold lastLine
        rw [jsSplit_append_singleton_sep]
        simp [List.getLastD_eq_getLast?]
      simp [this]
    · have hb : 0x0A ∉ [c] := by
        simp only [List.mem_singleton]
        exact fun h => hc h.symm
      rw [lastLine_append t [c] hb]
      simp [hc]

set_option maxRecDepth 100000 in
/-- C19, as stated, fails: the transformed code `jsxTransformed` ends with the
line `var a = b(null);` and no newline, and the source-map comment is appended
to that very line instead of starting a line of its own. -/
theorem comment_not_on_own_line :
    (transformCode (hostWith (Except.ok jsxTransformed)) jsxScript (some (utf16 "a.js"))
        initTransformState).1
      = Except.ok (jsxTransformed.code ++ sourceMappingPrefix ++ jsxPayload) ∧
    lastLine (jsxTransformed.code ++ sourceMappingPrefix ++ jsxPayload)
      = utf16 "var a = b(null);" ++ sourceMappingPrefix ++ jsxPayload ∧
    lastLine (jsxTransformed.code ++ sourceMappingPrefix ++ jsxPayload)
      ≠ sourceMappingPrefix ++ jsxPayload := by
  have hlast : lastLine (jsxTransformed.code ++ sourceMappingPrefix ++ jsxPayload)
      = utf16 "var a = b(null);" ++ sourceMappingPrefix ++ jsxPayload := by
    rw [List.append_assoc, lastLine_append _ _ (by decide)]
    have : lastLine jsxTransformed.code = utf16 "var a = b(null);" := by decide
    rw [this, List.append_assoc]
  refine ⟨by rfl, hlast, ?_⟩
  rw [hlast]
  decide

/-- C19, amended. Wire artifact shape: for every fragment whose transform yields
a source map, the text produced by `transformCode` is the transformed code
followed at once, with no line break put in between, by
`//# sourceMappingURL=data:application/json;base64,` and the base64 text, and
nothing follows it. With a base64 text that contains no newline, the last line
of the result is the last line of the transformed code followed by the
comment; so the comment is a line of its own exactly when the transformed code
is empty or ends with a newline. -/
theorem wire_artifact (host : Host) (code : JSString) (source : Option JSString)
    (st : TransformState) (transformed : Transformed) (map : List (JSString × JSON))
    (hjsx : host.jsx code = true) (hok : host.transformReact code = Except.ok transformed)
    (hmap : transformed.sourceMap = some map)
    (hpayload : 0x0A ∉ host.base64 (host.stringify (JSON.object
      (sourceMapFor map (sourceLabel source st.inlineScriptCount).1 code)))) :
    (transformCode host code source st).1
      = Except.ok (transformed.code ++ (sourceMappingPrefix
          ++ host.base64 (host.stringify (JSON.object
            (sourceMapFor map (sourceLabel source st.inlineScriptCount).1 code))))) ∧
    lastLine (transformed.code ++ (sourceMappingPrefix
          ++ host.base64 (host.stringify (JSON.object
            (sourceMapFor map (sourceLabel source st.inlineScriptCount).1 code)))))
      = lastLine transformed.code ++ (sourceMappingPrefix
          ++ host.base64 (host.stringify (JSON.object
            (sourceMapFor map (sourceLabel source st.inlineScriptCount).1 code)))) ∧
    (lastLine (transformed.code ++ (sourceMappingPrefix
          ++ host.base64 (host.stringify (JSON.object
            (sourceMapFor map (sourceLabel source st.inlineScriptCount).1 code)))))
        = sourceMappingPrefix
          ++ host.base64 (host.stringify (JSON.object
            (sourceMapFor map (sourceLabel source st.inlineScriptCount).1 code)))
      ↔ transformed.code = [] ∨ transformed.code.getLast? = some 0x0A) := by
  have hres : (transformCode host code source st).1
      = Except.ok (transformed.code ++ (sourceMappingPrefix
          ++ host.base64 (host.stringify (JSON.object
            (sourceMapFor map (sourceLabel source st.inlineScriptCount).1 code))))) := by
    simp only [transformCode, hjsx, if_true, hok, hmap, List.append_assoc]
  refine ⟨hres, ?_⟩
  generalize host.base64 (host.stringify (JSON.object
      (sourceMapFor map (sourceLabel source st.inlineScriptCount).1 code))) = payload
    at hpayload ⊢
  have hcomment : 0x0A ∉ sourceMappingPrefix ++ payload := by
    intro hm
    rw [List.mem_append] at hm
    rcases hm with hm | hm
    · revert hm; decide
    · exact hpayload hm
  have hlast := lastLine_append transformed.code _ hcomment
  refine ⟨hlast, ?_⟩
  · rw [hlast, ← lastLine_eq_nil_iff]
    constructor
    · intro h
      exact List.append_left_eq_self.1 h
    · intro h
      rw [h, List.nil_append]

set_option maxRecDepth 100000 in
/-- For `jsxScript` with the source `a.js` the result is the transformed code
followed at once by the comment. -/
theorem wire_artifact_witness :
    (transformCode (hostWith (Except.ok jsxTransformed)) jsxScript (some (utf16 "a.js"))
        initTransformState).1
      = Except.ok (jsxTransformed.code ++ (sourceMappingPrefix ++ jsxPayload)) :=
  (wire_artifact (hostWith (Except.ok jsxTransformed)) jsxScript (some (utf16 "a.js"))
    initTransformState jsxTransformed
    [(utf16 "version", JSON.number 3), (utf16 "sources", JSON.array []),
      (utf16 "mappings", JSON.string (utf16 "AAAA"))]
    (by decide) rfl rfl (by decide)).1.trans rfl

/-! ## The source map -/

theorem getProperty_setProperty_self (fields : List (JSString × JSON)) (key : JSString)
    (value : JSON) : getProperty (setProperty fields key value) key = some value := by
  induction fields with
  | nil => simp [setProperty, getProperty]
  | cons p rest ih =>
    obtain ⟨k, v⟩ := p
    by_cases hk : k = key
    · simp [setProperty, getProperty, hk]
    · simp [setProperty, getProperty, hk, ih]

theorem getProperty_setProperty_of_ne (fields : List (JSString × JSON)) (key other : JSString)
    (value : JSON) (h : other ≠ key) :
    getProperty (setProperty fields key value) other = getProperty fields other := by
  induction fields with
  | nil => simp [setProperty, getProperty, Ne.symm h]
  | cons p rest ih =>
    obtain ⟨k, v⟩ := p
    by_cases hk : k = key
    · subst hk
      simp [setProperty, getProperty, Ne.symm h]
    · by_cases hko : k = other
      · subst hko
        simp [setProperty, getProperty, hk]
      · simp [setProperty, getProperty, hk, hko, ih]

/-- C13. Source map round-trip: for every fragment whose transform yields a
source map, the text that `transformCode` appends after
`//# sourceMappingURL=data:application/json;base64,`, decoded from base64 and
parsed as JSON by a decoder and a parser that invert the host's base64 and
`JSON.stringify` on this payload, is an object whose `sources` is `[label]`
and whose `sourcesContent` is `[code]`, where `label` is the label that
`transformCode` chose for the fragment and `code` the untransformed input. -/
theorem source_map_round_trip (host : Host) (code : JSString) (source : Option JSString)
    (st : TransformState) (transformed : Transformed) (map : List (JSString × JSON))
    (decode64 : JSString → Option JSString) (parse : JSString → Option JSON)
    (hjsx : host.jsx code = true) (hok : host.transformReact code = Except.ok transformed)
    (hmap : transformed.sourceMap = some map)
    (h64 : decode64 (host.base64 (host.stringify (JSON.object
        (sourceMapFor map (sourceLabel source st.inlineScriptCount).1 code))))
      = some (host.stringify (JSON.object
        (sourceMapFor map (sourceLabel source st.inlineScriptCount).1 code))))
    (hparse : parse (host.stringify (JSON.object
        (sourceMapFor map (sourceLabel source st.inlineScriptCount).1 code)))
      = some (JSON.object
        (sourceMapFor map (sourceLabel source st.inlineScriptCount).1 code))) :
    ∃ payload fields,
      (transformCode host code source st).1
        = Except.ok (transformed.code ++ sourceMappingPrefix ++ payload) ∧
      (transformCode host code source st).2.labels
        = st.labels ++ [(sourceLabel source st.inlineScriptCount).1] ∧
      (decode64 payload).bind parse = some (JSON.object fields) ∧
      getProperty fields (utf16 "sources")
        = some (JSON.array [JSON.string (sourceLabel source st.inlineScriptCount).1]) ∧
      getProperty fields (utf16 "sourcesContent")
        = some (JSON.array [JSON.string code]) := by
  refine ⟨host.base64 (host.stringify (JSON.object
      (sourceMapFor map (sourceLabel source st.inlineScriptCount).1 code))),
    sourceMapFor map (sourceLabel source st.inlineScriptCount).1 code, ?_, ?_, ?_, ?_, ?_⟩
  · simp only [transformCode, hjsx, if_true, hok, hmap]
  · simp only [transformCode, hjsx, if_true, hok, hmap]
  · rw [h64]
    exact hparse
  · unfold sourceMapFor
    rw [getProperty_setProperty_of_ne _ _ _ _ (by decide), getProperty_setProperty_self]
  · unfold sourceMapFor
    rw [getProperty_setProperty_self]

set_option maxRecDepth 100000 in
/-- For `jsxScript` with the source `a.js`: the payload, decoded by
`base64Decode` and read back, has `sources` equal to `["a.js"]` and
`sourcesContent` equal to the script. -/
theorem source_map_round_trip_witness :
    ∃ payload fields,
      (transformCode (hostWith (Except.ok jsxTransformed)) jsxScript (some (utf16 "a.js"))
          initTransformState).1
        = Except.ok (jsxTransformed.code ++ sourceMappingPrefix ++ payload) ∧
      (transformCode (hostWith (Except.ok jsxTransformed)) jsxScript (some (utf16 "a.js"))
          initTransformState).2.labels
        = initTransformState.labels
          ++ [(sourceLabel (some (utf16 "a.js")) initTransformState.inlineScriptCount).1] ∧
      (base64Decode payload).bind (parseOnly (JSON.object (sourceMapFor
          [(utf16 "version", JSON.number 3), (utf16 "sources", JSON.array []),
            (utf16 "mappings", JSON.string (utf16 "AAAA"))] (utf16 "a.js") jsxScript)))
        = some (JSON.object fields) ∧
      getProperty fields (utf16 "sources")
        = some (JSON.array [JSON.string
            (sourceLabel (some (utf16 "a.js")) initTransformState.inlineScriptCount).1]) ∧
      getProperty fields (utf16 "sourcesContent")
        = some (JSON.array [JSON.string jsxScript]) :=
  source_map_round_trip (hostWith (Except.ok jsxTransformed)) jsxScript (some (utf16 "a.js"))
    initTransformState jsxTransformed
    [(utf16 "version", JSON.number 3), (utf16 "sources", JSON.array []),
      (utf16 "mappings", JSON.string (utf16 "AAAA"))]
    base64Decode
    (parseOnly (JSON.object (sourceMapFor
      [(utf16 "version", JSON.number 3), (utf16 "sources", JSON.array []),
        (utf16 "mappings", JSON.string (utf16 "AAAA"))] (utf16 "a.js") jsxScript)))
    (by decide) rfl rfl rfl (if_pos rfl)

/-! ## The labels of the inline scripts -/

/-- What one call of `transformCode` does to the counter and to the labels. -/
theorem transformCode_labels (host : Host) (code : JSString) (source : Option JSString)
    (st : TransformState) :
    ((transformCode host code source st).2.labels
        = st.labels ++ (if getsLabel host (code, source) then
            [(sourceLabel source st.inlineScriptCount).1] else [])) ∧
    (transformCode host code source st).2.inlineScriptCount
        = (if getsLabel host (code, source) then (sourceLabel source st.inlineScriptCount).2
            else st.inlineScriptCount) := by
  unfold transformCode getsLabel
  cases hjsx : host.jsx code with
  | false => simp
  | true =>
    cases hres : host.transformReact code with
    | error e =>
      simp only [if_true, Bool.true_and]
      split <;> simp
    | ok transformed =>
      cases hmap : transformed.sourceMap with
      | none => simp [hmap]
      | some map => simp [hmap]

theorem runFragments_labels (host : Host) (frags : List (JSString × Option JSString)) :
    ∀ st : TransformState,
      (runFragments host frags st).labels
        = st.labels ++ labelsFrom ((frags.filter (getsLabel host)).map Prod.snd)
            st.inlineScriptCount := by
  induction frags with
  | nil => intro st; simp [runFragments, labelsFrom]
  | cons frag rest ih =>
    intro st
    obtain ⟨code, source⟩ := frag
    obtain ⟨h1, h2⟩ := transformCode_labels host code source st
    simp only [runFragments]
    rw [ih, h1, h2]
    cases hg : getsLabel host (code, source) with
    | false => simp [List.filter_cons, hg]
    | true => simp [List.filter_cons, hg, labelsFrom]

theorem sourceLabel_count (source : Option JSString) (count : Nat) :
    (sourceLabel source count).2 = count + (if source.isNone then 1 else 0) := by
  cases source with
  | some s => rfl
  | none =>
    unfold sourceLabel
    simp only
    split <;> rfl

theorem sourceLabel_none (count : Nat) :
    (sourceLabel none count).1
      = if count + 1 = 1 then utf16 "Inline JSX script"
        else utf16 "Inline JSX script" ++ utf16 " (" ++ numberToString (count + 1 : Nat)
          ++ utf16 ")" := by
  unfold sourceLabel
  simp only
  by_cases h : count + 1 > 1
  · rw [if_pos h, if_neg (by omega)]
    simp only [List.append_assoc]
  · rw [if_neg h, if_pos (by omega)]

/-- The label at each place of `labelsFrom`. -/
theorem labelsFrom_getElem? (sources : List (Option JSString)) :
    ∀ (count i : Nat) (source : Option JSString), sources[i]? = some source →
      (labelsFrom sources count)[i]? = some (expectedLabel source
        (count + (sources.take (i + 1)).countP (fun x => x.isNone))) := by
  induction sources with
  | nil => intro count i source h; simp at h
  | cons s0 rest ih =>
    intro count i source h
    cases i with
    | zero =>
      simp only [List.getElem?_cons_zero, Option.some.injEq] at h
      subst h
      cases s0 with
      | some s => simp [labelsFrom, sourceLabel, expectedLabel]
      | none =>
        simp only [labelsFrom, List.getElem?_cons_zero, sourceLabel_none, expectedLabel]
        simp
    | succ j =>
      simp only [List.getElem?_cons_succ] at h
      have key := ih (count + (if s0.isNone = true then 1 else 0)) j source h
      simp only [labelsFrom, List.getElem?_cons_succ, sourceLabel_count]
      rw [key]
      have hc : count + (if s0.isNone = true then 1 else 0)
            + List.countP (fun x => x.isNone) (List.take (j + 1) rest)
          = count + List.countP (fun x => x.isNone) (List.take (j + 1 + 1) (s0 :: rest)) := by
        rw [List.take_succ_cons, List.countP_cons]
        omega
      rw [hc]

set_option maxRecDepth 100000 in
/-- C14, as stated, fails: two inline fragments without a source are labeled
`Inline JSX script` and `Inline JSX script (2)`, not `Inline script` and
`Inline script (2)`. -/
theorem inline_labels_say_jsx :
    (runFragments (hostWith (Except.ok jsxTransformed)) [(jsxScript, none), (jsxScript, none)]
        initTransformState).labels
      = [utf16 "Inline JSX script", utf16 "Inline JSX script (2)"] ∧
    [utf16 "Inline JSX script", utf16 "Inline JSX script (2)"]
      ≠ [utf16 "Inline script", utf16 "Inline script (2)"] := by
  refine ⟨by rfl, by decide⟩

/-- C14, amended. Inline labeling: over a run that starts with the counter at 0,
consider the fragments that get a source map, those with the `jsx` pragma whose
transform returns one, in discovery order. Each of them gets one label. A
fragment with an explicit source is labeled with that source and does not
advance the counter; the `n`-th of those without a source is labeled
`Inline JSX script` when `n = 1` and `Inline JSX script (n)` when `n ≥ 2`.
Fragments that get no source map are not labeled and do not advance the
counter. -/
theorem inline_labels (host : Host) (frags : List (JSString × Option JSString))
    (i : Nat) (source : Option JSString)
    (hsource : ((frags.filter (getsLabel host)).map Prod.snd)[i]? = some source) :
    (runFragments host frags initTransformState).labels.length
      = (frags.filter (getsLabel host)).length ∧
    (runFragments host frags initTransformState).labels[i]? = some (expectedLabel source
      ((((frags.filter (getsLabel host)).map Prod.snd).take (i + 1)).countP
        (fun x => x.isNone))) := by
  have hlen : ∀ (l : List (Option JSString)) (c : Nat), (labelsFrom l c).length = l.length := by
    intro l
    induction l with
    | nil => intro c; rfl
    | cons a t ih => intro c; simp [labelsFrom, ih]
  rw [runFragments_labels]
  constructor
  · simp [initTransformState, hlen]
  · have := labelsFrom_getElem? _ 0 i source hsource
    simp only [Nat.zero_add] at this
    simpa [initTransformState] using this

set_option maxRecDepth 100000 in
/-- A page with an inline script, a script without the pragma, a script with the
source `a.js` and another inline script: the fourth fragment is the third to
get a label, and its label is `Inline JSX script (2)`. -/
theorem inline_labels_witness :
    (runFragments (hostWith (Except.ok jsxTransformed))
        [(jsxScript, none), (utf16 "var plain;", none), (jsxScript, some (utf16 "a.js")),
          (jsxScript, none)] initTransformState).labels[2]?
      = some (utf16 "Inline JSX script (2)") :=
  ((inline_labels (hostWith (Except.ok jsxTransformed))
      [(jsxScript, none), (utf16 "var plain;", none), (jsxScript, some (utf16 "a.js")),
        (jsxScript, none)] 2 none (by decide)).2).trans (by decide)

/-! ## The caret line -/

set_option maxRecDepth 100000 in
/-- The example in the comment above `createSourceCodeErrorMessage` in the source:
a line cut on both sides, with the caret after 32 spaces. -/
theorem comment_example :
    createSourceCodeErrorMessage commentExampleLine (errorAt 1 69) = Except.ok
      (utf16 "\n\n"
        ++ utf16 ("... x', overflow:'scroll'\x7d\x7d id=\x7b\x7d " ++
            "onScroll=\x7bthis.scroll\x7d class=\" ...")
        ++ utf16 "\n"
        ++ utf16 "                                ^") := by
  rfl

/-- C8, amended. Caret line of `createSourceCodeErrorMessage`: for every source
text and every failure whose line exists and whose effective column `col`
(column minus stripped indentation, after the truncation adjustment: 34 when
column minus indentation exceeds 30) is at least 1, the last line of the
returned message is exactly `col - 2` spaces (none when `col` is 1 or 2)
followed by `^`, so the caret sits at column `col - 1`; in particular whenever
column minus indentation exceeds 30 the caret line is 32 spaces followed by
`^`, the caret sitting at column 33, as in the example of the comment in the
source. -/
theorem caret_line (code : JSString) (e : TransformError) (line : JSString)
    (hline : jsIndex (jsSplit 0x0A code) (e.lineNumber - 1) = some line)
    (hcol : ((line.takeWhile isWhiteSpace).length : Int) < e.column) :
    ∃ msg, createSourceCodeErrorMessage code e = Except.ok msg ∧
      lastLine msg = List.replicate
          ((if e.column - (line.takeWhile isWhiteSpace).length > 30 then 34
            else e.column - (line.takeWhile isWhiteSpace).length) - 2).toNat 0x20
        ++ utf16 "^" ∧
      (e.column - (line.takeWhile isWhiteSpace).length > 30 →
        lastLine msg = List.replicate 32 0x20 ++ utf16 "^") := by
  have hnl : 0x0A ∉ line := not_mem_of_mem_jsSplit _ _ line (mem_of_jsIndex hline)
  have hsplit := jsSplit_message (specTruncate (line.dropWhile isWhiteSpace)
      (e.column - (line.takeWhile isWhiteSpace).length)).1
    (List.replicate ((specTruncate (line.dropWhile isWhiteSpace)
      (e.column - (line.takeWhile isWhiteSpace).length)).2 - 2).toNat 0x20)
    (not_mem_specTruncate _ _ (not_mem_stripped line hnl)) (not_mem_spaces _)
  have hlast : lastLine (utf16 "\n\n"
        ++ (specTruncate (line.dropWhile isWhiteSpace)
            (e.column - (line.takeWhile isWhiteSpace).length)).1
        ++ utf16 "\n"
        ++ List.replicate ((specTruncate (line.dropWhile isWhiteSpace)
            (e.column - (line.takeWhile isWhiteSpace).length)).2 - 2).toNat 0x20
        ++ utf16 "^")
      = List.replicate
          ((if e.column - (line.takeWhile isWhiteSpace).length > 30 then 34
            else e.column - (line.takeWhile isWhiteSpace).length) - 2).toNat 0x20
        ++ utf16 "^" := by
    unfold lastLine
    rw [hsplit, specTruncate_column]
    rfl
  refine ⟨_, createSourceCodeErrorMessage_eq code e line hline hcol, hlast, ?_⟩
  intro hbig
  rw [hlast, if_pos hbig]
  rfl

/-- The line of the truncation example with column 45: the caret line is 32
spaces followed by the caret. -/
theorem caret_line_witness :
    ∃ msg, createSourceCodeErrorMessage exampleLine (errorAt 1 45) = Except.ok msg ∧
      lastLine msg = List.replicate
          ((if (errorAt 1 45).column - (exampleLine.takeWhile isWhiteSpace).length > 30 then 34
            else (errorAt 1 45).column - (exampleLine.takeWhile isWhiteSpace).length)
              - 2).toNat 0x20
        ++ utf16 "^" ∧
      ((errorAt 1 45).column - (exampleLine.takeWhile isWhiteSpace).length > 30 →
        lastLine msg = List.replicate 32 0x20 ++ utf16 "^") :=
  caret_line exampleLine (errorAt 1 45) exampleLine (by rfl) (by decide)

end BrowserTransforms
